import Mathlib

set_option maxHeartbeats 1000000

namespace OV

/-! # Shallow embedding of the Online3DViewer import pipeline

JavaScript values are modelled explicitly: a numeric slot that can hold
`undefined` is an `Option`, array reads out of range yield `undefined`, and
thrown `TypeError`s are modelled with `Except`. -/

/-- An integer-valued JavaScript number slot; `none` models `undefined`. -/
abbrev JNum := Option Int

/-- A JavaScript number slot; `none` models `undefined`. -/
abbrev JReal := Option ℚ

/-- Reading `xs[i]` on a JavaScript array: in range yields the element (which
may itself be `undefined`), out of range yields `undefined`. -/
def jsGet {α : Type} (xs : List (Option α)) (i : Nat) : Option α :=
  (xs.get? i).join

/-- `Math.round` on an exact rational: round half towards positive infinity. -/
def jsRound (q : ℚ) : Int := ⌊q + 1/2⌋

/-- Modelled from the spec: `ColorComponentToFloat` (source/engine/model/color.js
is not under src/); a `[0,255]` integer channel becomes a normalized float by
division by 255 ("opacity separately converted from a normalized float"). -/
def ColorComponentToFloat (a : JNum) : Option ℚ :=
  Option.map (fun v : Int => (v : ℚ) / 255) a

/-- Modelled from the spec: `ColorComponentFromFloat` (source/engine/model/color.js
is not under src/); the inverse conversion, multiplying by 255 and rounding. -/
def ColorComponentFromFloat (o : Option ℚ) : JNum :=
  Option.map (fun q : ℚ => jsRound (q * 255)) o

/-- The schema-1.1.0 mode test, `colors_length >= indices_length` with
`colors_length = bimMesh.colors.length / 4`, on exact rationals. Decidability
is routed through the equivalent integer comparison `4*L ≤ csLen` so that
concrete instances evaluate inside the kernel. -/
def vertexColorModeCond (csLen L : Nat) : Prop := (csLen : ℚ) / 4 ≥ (L : ℚ)

instance (csLen L : Nat) : Decidable (vertexColorModeCond csLen L) :=
  decidable_of_iff (4 * L ≤ csLen) (by
    unfold vertexColorModeCond
    rw [ge_iff_le, le_div_iff₀ (by norm_num : (0:ℚ) < 4)]
    constructor
    · intro h
      have h2 : ((4 * L : ℕ) : ℚ) ≤ (csLen : ℚ) := Nat.cast_le.mpr h
      push_cast at h2
      linarith
    · intro h
      have h2 : ((4 * L : ℕ) : ℚ) ≤ (csLen : ℚ) := by push_cast; linarith
      exact_mod_cast h2)

/-- A thrown JavaScript error crossing the importer boundary. -/
inductive JsErr where
  | typeError (msg : String)
deriving DecidableEq

/-! ## BIM document data model (the parsed JSON, per src/unnamed/part_002) -/

structure BimVector where
  x : ℚ
  y : ℚ
  z : ℚ
deriving DecidableEq

structure BimRotation where
  qx : ℚ
  qy : ℚ
  qz : ℚ
  qw : ℚ
deriving DecidableEq

structure BimRGBA where
  r : Int
  g : Int
  b : Int
  a : Int
deriving DecidableEq

structure BimMesh where
  mesh_id : Int
  coordinates : List JReal
  indices : List JNum
  colors : Option (List JNum)
deriving DecidableEq

/-- A BIM element. The free-form `info` map is not modelled: no claim observes
the imported property groups. -/
structure BimElement where
  mesh_id : Int
  type : Option String
  color : Option BimRGBA
  face_colors : Option (List JNum)
  vector : Option BimVector
  rotation : Option BimRotation
  guid : Option String
deriving DecidableEq

structure BimDoc where
  schema_version : String
  meshes : List BimMesh
  elements : List BimElement
deriving DecidableEq

/-! ## Unified model fragments populated by the BIM importer

Mesh, Triangle, Node and Model (source/engine/model/, not under src/) are
modelled from the spec, section 3: a mesh holds insertion-ordered vertices and
triangles, each triangle holds three vertex indices plus either a material
index or three vertex-color indices; materials and colors are deduplicated
model- resp. mesh-level sequences. Node transformations (ComposeTRS of
translation, quaternion and unit scale) are not modelled: no claim observes
them, only the mesh reference of the created node. -/

/-- The exact channel tuple a deduplication map is keyed by; a component is
`none` when the JavaScript value read for it was `undefined`. -/
abbrev ColorKey := JNum × JNum × JNum × JNum

structure UTriangle where
  v0 : JNum
  v1 : JNum
  v2 : JNum
  mat : Option Nat
  vertexColors : Option (Option Nat × Option Nat × Option Nat)
deriving DecidableEq

structure UMesh where
  name : Option String
  vertices : List (JReal × JReal × JReal)
  triangles : List UTriangle
  vcolors : List ColorKey
deriving DecidableEq

/-- A deduplicated material: the spec keeps a base color and an opacity
converted from the `a` channel. The three color channels are kept exactly as
handed to the converter (the BIM exporter reads them back verbatim). -/
structure BimMaterial where
  r : JNum
  g : JNum
  b : JNum
  opacity : Option ℚ
deriving DecidableEq

structure BimNode where
  meshIndex : Nat
deriving DecidableEq

structure BimModel where
  meshes : List UMesh
  materials : List BimMaterial
  rootNodes : List BimNode
deriving DecidableEq

structure BimImportState where
  model : BimModel
  colorToMat : List (ColorKey × Nat)
deriving DecidableEq

/-- The material built for a color key: channels kept, opacity converted. -/
def matOf (k : ColorKey) : BimMaterial :=
  { r := k.1, g := k.2.1, b := k.2.2.1, opacity := ColorComponentToFloat k.2.2.2 }

/-- Modelled from the spec: `ColorToMaterialConverter.GetMaterialIndex`
(source/engine/import/importerutils.js is not under src/): an explicit map
keyed by the exact channel tuple; each distinct color value maps to exactly one
stored material index for the lifetime of one import; an unseen color appends
a new deduplicated material to the model. -/
def GetMaterialIndex (k : ColorKey) (st : BimImportState) : Nat × BimImportState :=
  match (st.colorToMat.find? (fun p => decide (p.1 = k))).map (fun p => p.2) with
  | some i => (i, st)
  | none =>
      let i := st.model.materials.length
      (i, { st with
              model := { st.model with materials := st.model.materials ++ [matOf k] },
              colorToMat := st.colorToMat ++ [(k, i)] })

/-- Number of iterations of a JavaScript loop `for (i = 0; i < len; i += 3)`. -/
def strideCount (len : Nat) : Nat := (len + 2) / 3

/-- The vertex list built from the flat coordinate array (iteration `v` reads
entries `3v`, `3v+1`, `3v+2`, exactly the loop over `i = 3v`). -/
def buildVertices (coordinates : List JReal) : List (JReal × JReal × JReal) :=
  (List.range (strideCount coordinates.length)).map
    (fun v => (jsGet coordinates (3*v), jsGet coordinates (3*v+1), jsGet coordinates (3*v+2)))

/-- The triangle-building loop of `ImportMeshMaterial`, in material mode: one
triangle per index triple, its material obtained from the stateful callback at
triangle index `t = i / 3`. -/
def buildTrisMat (indices : List JNum) (getMat : Nat → BimImportState → Nat × BimImportState) :
    List Nat → BimImportState → List UTriangle × BimImportState
  | [], st => ([], st)
  | t :: ts, st =>
      let p := getMat t st
      let rest := buildTrisMat indices getMat ts p.2
      ({ v0 := jsGet indices (3*t), v1 := jsGet indices (3*t+1), v2 := jsGet indices (3*t+2),
         mat := some p.1, vertexColors := none } :: rest.1, rest.2)

/-- `ImporterBim.ImportMeshMaterial`. -/
def ImportMeshMaterial (bm : BimMesh) (getMat : Nat → BimImportState → Nat × BimImportState)
    (st : BimImportState) : UMesh × BimImportState :=
  let p := buildTrisMat bm.indices getMat (List.range (strideCount bm.indices.length)) st
  ({ name := none, vertices := buildVertices bm.coordinates, triangles := p.1, vcolors := [] }, p.2)

/-- A JavaScript value handed to the color→vertex-color converter: either an
`RGBAColor` object, or the self-referential `colors_array` the 1.1.0 callback
pushes into itself. Reading the channel fields of the latter yields
`undefined` for every channel. -/
inductive JsColorVal where
  | rgba (r g b a : JNum)
  | arrayRef
deriving DecidableEq

def channelKey : JsColorVal → ColorKey
  | .rgba r g b a => (r, g, b, a)
  | .arrayRef => (none, none, none, none)

/-- The per-mesh state of the color→vertex-color converter: the mesh's color
sequence plus the deduplication map. -/
structure VColorState where
  vcolors : List ColorKey
  colorToVC : List (ColorKey × Nat)
deriving DecidableEq

/-- Modelled from the spec: `ColorToVertexColorsConverter.GetVertexColorIndex`
(source/engine/import/importerutils.js is not under src/): a per-mesh map keyed
by the exact channel tuple, appending unseen colors to the mesh. -/
def GetVertexColorIndex (v : JsColorVal) (st : VColorState) : Nat × VColorState :=
  let k := channelKey v
  match (st.colorToVC.find? (fun p => decide (p.1 = k))).map (fun p => p.2) with
  | some i => (i, st)
  | none =>
      let i := st.vcolors.length
      (i, { vcolors := st.vcolors ++ [k], colorToVC := st.colorToVC ++ [(k, i)] })

/-- `colors.map(color => converter.GetVertexColorIndex(color))`. -/
def mapGetVCIndex : List JsColorVal → VColorState → List Nat × VColorState
  | [], st => ([], st)
  | c :: cs, st =>
      let p := GetVertexColorIndex c st
      let rest := mapGetVCIndex cs p.2
      (p.1 :: rest.1, rest.2)

/-- The triangle-building loop of `ImportMeshVertexColors`: the triangle's
three vertex-color slots are `color_index[0..2]`, read with JavaScript array
semantics (out of range is `undefined`). -/
def buildTrisVC (indices : List JNum) (getVertexColors : Nat → List JsColorVal) :
    List Nat → VColorState → List UTriangle × VColorState
  | [], st => ([], st)
  | t :: ts, st =>
      let p := mapGetVCIndex (getVertexColors t) st
      let rest := buildTrisVC indices getVertexColors ts p.2
      ({ v0 := jsGet indices (3*t), v1 := jsGet indices (3*t+1), v2 := jsGet indices (3*t+2),
         mat := none,
         vertexColors := some (p.1.get? 0, p.1.get? 1, p.1.get? 2) } :: rest.1, rest.2)

/-- `ImporterBim.ImportMeshVertexColors`; its converter is created fresh for
this mesh. -/
def ImportMeshVertexColors (bm : BimMesh) (getVertexColors : Nat → List JsColorVal) : UMesh :=
  let p := buildTrisVC bm.indices getVertexColors (List.range (strideCount bm.indices.length)) ⟨[], []⟩
  { name := none, vertices := buildVertices bm.coordinates, triangles := p.1, vcolors := p.2.vcolors }

/-- The 1.1.0 vertex-color callback of `ImportElement`: the loop
`for (let c = 0; c < 3; c += 4)` runs exactly once (c = 0); its body builds an
`RGBAColor` from `colors[t*12 + 0..3]` and discards it, then executes
`colors_array.push(colors_array)`, pushing the array into itself. The callback
therefore returns a one-element array whose only entry is the array itself,
not a color. -/
def bimVertexColorCallback (cs : List JNum) (t : Nat) : List JsColorVal :=
  let _color := JsColorVal.rgba (jsGet cs (12*t)) (jsGet cs (12*t+1))
                  (jsGet cs (12*t+2)) (jsGet cs (12*t+3))
  [JsColorVal.arrayRef]

/-- `meshIdToMesh.get`: the map is filled by one `set` per mesh in document
order, so a later mesh with the same id overwrites an earlier one. -/
def meshMapGet (meshes : List BimMesh) (id : Int) : Option BimMesh :=
  meshes.reverse.find? (fun m => decide (m.mesh_id = id))

/-- JavaScript truthiness of the nullable numeric `defaultMaterialIndex`:
`null` and `0` are both falsy. -/
def truthyIdx (o : Option Nat) : Bool :=
  match o with
  | none => false
  | some i => decide (i ≠ 0)

def grayKey : ColorKey := (some 200, some 200, some 200, some 255)

/-- The material callback of the 1.0.0 `face_colors` branch. -/
def faceColorCallback (fc : Option (List JNum)) (dmi : Option Nat) (t : Nat)
    (st : BimImportState) : Nat × BimImportState :=
  match fc with
  | some fcs =>
      GetMaterialIndex (jsGet fcs (4*t), jsGet fcs (4*t+1), jsGet fcs (4*t+2), jsGet fcs (4*t+3)) st
  | none =>
      if truthyIdx dmi then (dmi.getD 0, st) else GetMaterialIndex grayKey st

/-- The material callback of the 1.1.0 `colors` branch in material mode. -/
def meshColorCallback (dmi : Option Nat) (csOpt : Option (List JNum)) (t : Nat)
    (st : BimImportState) : Nat × BimImportState :=
  if truthyIdx dmi then (dmi.getD 0, st)
  else
    match csOpt with
    | some cs =>
        GetMaterialIndex (jsGet cs (4*t), jsGet cs (4*t+1), jsGet cs (4*t+2), jsGet cs (4*t+3)) st
    | none => GetMaterialIndex grayKey st

/-- `ImporterBim.ImportElement`. Returns the index of the mesh added to the
model, or `none` when the source left `mesh` as `null` (in which case the
source still executes `AddMesh(null)` and the caller's `mesh.SetName` throws).
A missing referenced mesh makes the property accesses on `undefined` throw. -/
def ImportElement (meshes : List BimMesh) (el : BimElement) (st0 : BimImportState) :
    Except JsErr (Option Nat × BimImportState) := do
  let dp :=
    match el.color with
    | some c =>
        let p := GetMaterialIndex (some c.r, some c.g, some c.b, some c.a) st0
        (some p.1, p.2)
    | none => ((none : Option Nat), st0)
  let dmi := dp.1
  let st1 := dp.2
  let bimMesh := meshMapGet meshes el.mesh_id
  -- 1.0.0 - extension face_colors
  let q1 ←
    match el.face_colors with
    | some _ =>
        match bimMesh with
        | none => Except.error (JsErr.typeError "Cannot read properties of undefined (reading coordinates)")
        | some bm =>
            let p := ImportMeshMaterial bm (faceColorCallback el.face_colors dmi) st1
            Except.ok ((some p.1 : Option UMesh), p.2)
    | none => Except.ok ((none : Option UMesh), st1)
  -- 1.1.0 - colors
  let q2 ←
    match bimMesh with
    | none => Except.error (JsErr.typeError "Cannot read properties of undefined (reading colors)")
    | some bm =>
        match bm.colors with
        | none => Except.ok q1
        | some cs =>
            if vertexColorModeCond cs.length bm.indices.length then
              Except.ok ((some (ImportMeshVertexColors bm (bimVertexColorCallback cs)) : Option UMesh), q1.2)
            else
              let p := ImportMeshMaterial bm (meshColorCallback dmi bm.colors) q1.2
              Except.ok ((some p.1 : Option UMesh), p.2)
  match q2.1 with
  | none => Except.ok (none, q2.2)
  | some mesh =>
      let st3 := q2.2
      let idx := st3.model.meshes.length
      Except.ok (some idx,
        { st3 with model := { st3.model with
            meshes := st3.model.meshes ++ [mesh],
            rootNodes := st3.model.rootNodes ++ [⟨idx⟩] } })

/-- `mesh.SetName(...)` on the mesh just added at index `idx`. -/
def setMeshName (st : BimImportState) (idx : Nat) (name : Option String) : BimImportState :=
  match st.model.meshes.get? idx with
  | none => st
  | some m =>
      { st with model := { st.model with meshes := st.model.meshes.set idx { m with name := name } } }

/-- The element loop of `ImporterBim.ImportContent`: each element is imported,
then `mesh.SetName(bimElement.type)` runs on the returned mesh, throwing a
`TypeError` when `ImportElement` returned `null`. `ImportProperties` is not
modelled (no claim observes property groups). -/
def importElements (meshes : List BimMesh) : List BimElement → BimImportState → Except JsErr BimImportState
  | [], st => Except.ok st
  | el :: rest, st => do
      let p ← ImportElement meshes el st
      match p.1 with
      | none => Except.error (JsErr.typeError "Cannot read properties of null (reading SetName)")
      | some idx => importElements meshes rest (setMeshName p.2 idx el.type)

/-- `ImporterBim.ImportContent` on an already-parsed document (JSON parsing is
external; its failure path records an error and is not reached from a parsed
document). The fresh state is the one `ResetContent` installs. -/
def BimImportContent (doc : BimDoc) : Except JsErr BimImportState :=
  importElements doc.meshes doc.elements ⟨⟨[], [], []⟩, []⟩

/-! ## BIM exporter (src/unnamed/part_000) -/

/-- One triangle's contribution to the exported flat color array:
`GetMaterial(triangle.mat)` (ExporterModel, not under src/, modelled from the
spec as the model's material lookup) followed by reads of its channels; a
triangle without a material index makes the channel reads throw. -/
def exportTriangleColor (materials : List BimMaterial) (t : UTriangle) : Except JsErr (List JNum) :=
  match t.mat.bind (fun i => materials.get? i) with
  | none => Except.error (JsErr.typeError "Cannot read properties of undefined (reading color)")
  | some m => Except.ok [m.r, m.g, m.b, ColorComponentFromFloat m.opacity]

def exportColors (materials : List BimMaterial) : List UTriangle → Except JsErr (List JNum)
  | [] => Except.ok []
  | t :: ts => do
      let c ← exportTriangleColor materials t
      let rest ← exportColors materials ts
      Except.ok (c ++ rest)

/-- The mesh loop of `ExporterBim.ExportContent`: one schema-1.1.0 JSON mesh
(flattened coordinates, indices and per-triangle RGBA colors) and one JSON
element (identity rotation, zero translation, fresh identifier) per model
mesh. `EnumerateTransformedMeshes` is part of ExporterModel (not under src/);
modelled from the spec, which describes the encoder as flattening each source
mesh's vertex and index arrays (a rigid transform changes no count the claims
observe). `GenerateGuid` draws on `Math.random`; it is modelled as a supplied
identifier function. Property flattening into `info` is not modelled. -/
def exportMeshes (materials : List BimMaterial) (guids : Nat → String) :
    List UMesh → Nat → Except JsErr (List BimMesh × List BimElement)
  | [], _ => Except.ok ([], [])
  | mesh :: rest, meshId => do
      let colors ← exportColors materials mesh.triangles
      let bimMesh : BimMesh :=
        { mesh_id := (meshId : Int),
          coordinates := (mesh.vertices.map (fun v => [v.1, v.2.1, v.2.2])).flatten,
          indices := (mesh.triangles.map (fun t => [t.v0, t.v1, t.v2])).flatten,
          colors := some colors }
      let bimElement : BimElement :=
        { mesh_id := (meshId : Int), type := some "Other", color := none, face_colors := none,
          vector := some ⟨0, 0, 0⟩, rotation := some ⟨0, 0, 0, 1⟩, guid := some (guids meshId) }
      let p ← exportMeshes materials guids rest (meshId + 1)
      Except.ok (bimMesh :: p.1, bimElement :: p.2)

/-- `ExporterBim.ExportContent`, producing the parsed form of the written
JSON document. -/
def BimExportContent (model : BimModel) (guids : Nat → String) : Except JsErr BimDoc := do
  let p ← exportMeshes model.materials guids model.meshes 0
  Except.ok { schema_version := "1.1.0", meshes := p.1, elements := p.2 }

/-- Decode, re-encode, decode again. -/
def BimRoundTrip (doc : BimDoc) (guids : Nat → String) :
    Except JsErr (BimImportState × BimImportState) := do
  let st1 ← BimImportContent doc
  let doc2 ← BimExportContent st1.model guids
  let st2 ← BimImportContent doc2
  Except.ok (st1, st2)

/-- The observable per-triangle color assignment: the RGBA channel tuple of
the material carried by triangle `t` of mesh `i`, with the opacity converted
back to a `[0,255]` channel. -/
def triangleColorKey (st : BimImportState) (i t : Nat) : Option ColorKey :=
  (st.model.meshes.get? i).bind fun m =>
  (m.triangles.get? t).bind fun tr =>
  tr.mat.bind fun mi =>
  (st.model.materials.get? mi).map fun mat =>
    (mat.r, mat.g, mat.b, ColorComponentFromFloat mat.opacity)

/-! ## Importer file list (src/unnamed/part_001) -/

/-- `FileSource` (source/engine/io/fileutils.js, not under src/): the source
kinds referenced by the file list module. The spec names Url, LocalFile
(`File`) and MemoryBuffer (`Blob`); the module's own code additionally
references `FileSource.Decompressed` for files extracted from archives. -/
inductive FileSource where
  | Url
  | File
  | Blob
  | Decompressed
deriving DecidableEq

structure ImporterFile where
  name : String
  extension : String
  source : FileSource
  content : Option (List Nat)
deriving DecidableEq

structure ImporterFileList where
  files : List ImporterFile
deriving DecidableEq

/-- `ImporterFileList.IsOnlyUrlSource`, clause for clause: an empty list
returns `false`; a file whose source is neither `Url` nor `Decompressed`
returns `false`; otherwise `true`. -/
def IsOnlyUrlSource (l : ImporterFileList) : Bool :=
  if l.files.length = 0 then false
  else l.files.all (fun f =>
    !(decide (f.source ≠ FileSource.Url) && decide (f.source ≠ FileSource.Decompressed)))

/-! ## XML document model for the CAD resolver
(source/engine/import/importerfcstd.js) -/

structure XmlElement where
  tag : String
  attrs : List (String × String)
  children : List XmlElement

mutual

def xmlElementEq : XmlElement → XmlElement → Bool
  | ⟨t1, a1, c1⟩, ⟨t2, a2, c2⟩ =>
      decide (t1 = t2) && decide (a1 = a2) && xmlListEq c1 c2

def xmlListEq : List XmlElement → List XmlElement → Bool
  | [], [] => true
  | x :: xs, y :: ys => xmlElementEq x y && xmlListEq xs ys
  | _, _ => false

end

mutual

theorem xmlElementEq_iff : ∀ x y : XmlElement, xmlElementEq x y = true ↔ x = y
  | ⟨t1, a1, c1⟩, ⟨t2, a2, c2⟩ => by
    simp only [xmlElementEq, Bool.and_eq_true, decide_eq_true_eq, XmlElement.mk.injEq]
    constructor
    · rintro ⟨⟨h1, h2⟩, h3⟩
      exact ⟨h1, h2, (xmlListEq_iff c1 c2).mp h3⟩
    · rintro ⟨h1, h2, h3⟩
      exact ⟨⟨h1, h2⟩, (xmlListEq_iff c1 c2).mpr h3⟩

theorem xmlListEq_iff : ∀ xs ys : List XmlElement, xmlListEq xs ys = true ↔ xs = ys
  | [], [] => by simp [xmlListEq]
  | [], _ :: _ => by simp [xmlListEq]
  | _ :: _, [] => by simp [xmlListEq]
  | x :: xs, y :: ys => by
    simp only [xmlListEq, Bool.and_eq_true, List.cons.injEq]
    constructor
    · rintro ⟨h1, h2⟩
      exact ⟨(xmlElementEq_iff x y).mp h1, (xmlListEq_iff xs ys).mp h2⟩
    · rintro ⟨h1, h2⟩
      exact ⟨(xmlElementEq_iff x y).mpr h1, (xmlListEq_iff xs ys).mpr h2⟩

end

instance : DecidableEq XmlElement := fun x y =>
  decidable_of_iff (xmlElementEq x y = true) (xmlElementEq_iff x y)

mutual

/-- All proper descendants of an element, in document (pre-)order. -/
def XmlElement.descendants : XmlElement → List XmlElement
  | ⟨_, _, cs⟩ => xmlDescendantsList cs

def xmlDescendantsList : List XmlElement → List XmlElement
  | [] => []
  | c :: cs => c :: (XmlElement.descendants c ++ xmlDescendantsList cs)

end

/-- `element.getElementsByTagName(tag)`: every descendant with the tag, in
document order. -/
def getElementsByTagName (e : XmlElement) (tag : String) : List XmlElement :=
  e.descendants.filter (fun d => decide (d.tag = tag))

/-- `element.getAttribute(name)`: `none` models the `null` returned for an
absent attribute. -/
def getAttribute (e : XmlElement) (name : String) : Option String :=
  (e.attrs.find? (fun p => decide (p.1 = name))).map (fun p => p.2)

/-- `FreeCadDocument.GetFirstChildValue`. -/
def GetFirstChildValue (e : XmlElement) (childTagName childAttribute : String) : Option String :=
  match getElementsByTagName e childTagName with
  | [] => none
  | c :: _ => getAttribute c childAttribute

/-! ## FreeCAD document resolver (source/engine/import/importerfcstd.js) -/

/-- `FreeCadObject`. `name` is an `Option` because `getAttribute` can return
`null`, and a JavaScript `Map` happily keys on `null`. -/
structure FreeCadObject where
  name : Option String
  type : Option String
  shapeName : Option String
  isVisible : Bool
  fileName : Option String
  fileContent : Option (List Nat)
  inLinkCount : Nat
deriving DecidableEq

/-- The `FreeCadObject` constructor. -/
def FreeCadObject.make (name type : Option String) : FreeCadObject :=
  { name := name, type := type, shapeName := none, isVisible := false,
    fileName := none, fileContent := none, inLinkCount := 0 }

/-- `FreeCadObject.IsConvertible`. -/
def FreeCadObject.IsConvertible (o : FreeCadObject) : Bool :=
  if o.fileName.isNone || o.fileContent.isNone then false
  else if !o.isVisible then false
  else if o.inLinkCount > 0 then false
  else true

/-- The `objectData` map: a JavaScript `Map` keyed on the (nullable) object
name; `set` overwrites in place, `get`/`has` match by key equality. -/
abbrev FcMap := List (Option String × FreeCadObject)

def fcHas (m : FcMap) (k : Option String) : Bool :=
  m.any (fun p => decide (p.1 = k))

def fcGet (m : FcMap) (k : Option String) : Option FreeCadObject :=
  (m.find? (fun p => decide (p.1 = k))).map (fun p => p.2)

def fcSet (m : FcMap) (k : Option String) (v : FreeCadObject) : FcMap :=
  if fcHas m k then m.map (fun p => if p.1 = k then (k, v) else p) else m ++ [(k, v)]

/-- One entry of the unzipped archive: the raw bytes together with the XML
document the external `DOMParser` yields for them. `fflate.unzipSync` is
external, so the archive is taken in its unpacked name→entry form. -/
structure FcEntry where
  bytes : List Nat
  xml : XmlElement
deriving DecidableEq

structure FcArchive where
  entries : List (String × FcEntry)
deriving DecidableEq

/-- `FreeCadDocument.HasFile` on a string name (`fileName in this.files`). -/
def FcArchive.hasFile (a : FcArchive) (n : String) : Bool :=
  a.entries.any (fun p => decide (p.1 = n))

/-- `HasFile` on a nullable name: the `in` operator coerces a `null` property
key to the string `"null"`. -/
def FcArchive.hasFileOpt (a : FcArchive) (n : Option String) : Bool :=
  match n with
  | none => a.hasFile "null"
  | some s => a.hasFile s

/-- `GetXMLContent` without the parse step: the entry's `DOMParser` view. -/
def FcArchive.getXML (a : FcArchive) (n : String) : Option XmlElement :=
  (a.entries.find? (fun p => decide (p.1 = n))).map (fun p => p.2.xml)

/-- `this.files[fileName]`. -/
def FcArchive.getBytes (a : FcArchive) (n : String) : Option (List Nat) :=
  (a.entries.find? (fun p => decide (p.1 = n))).map (fun p => p.2.bytes)

/-- Modelled from the spec: `GetFileExtension` (io/fileutils.js, not under
src/): the substring after the last dot, lowercased; empty when the name has
no dot. -/
def GetFileExtension (s : String) : String :=
  let parts := s.splitOn "."
  if parts.length ≤ 1 then "" else ((parts.getLast?).getD "").toLower

/-- `FreeCadDocument.IsSupportedType`; called with the `null` of a missing
`type` attribute, `startsWith` throws. The `indexOf('Part2D') !== -1`
containment test is expressed through `splitOn`. -/
def IsSupportedType (type : Option String) : Except JsErr Bool :=
  match type with
  | none => Except.error (JsErr.typeError "Cannot read properties of null (reading startsWith)")
  | some t =>
      if !(t.startsWith "Part::") && !(t.startsWith "PartDesign::") then Except.ok false
      else if (t.splitOn "Part2D").length > 1 then Except.ok false
      else Except.ok true

structure FreeCadDocument where
  objectNames : List (Option String)
  objectData : FcMap
deriving DecidableEq

/-- The object-list pass of `LoadDocumentXml`: each declared object with a
supported type is appended to `objectNames` and entered into `objectData`. -/
def objectsPass : List XmlElement → List (Option String) → FcMap →
    Except JsErr (List (Option String) × FcMap)
  | [], names, m => Except.ok (names, m)
  | oe :: rest, names, m => do
      let name := getAttribute oe "name"
      let type := getAttribute oe "type"
      let supported ← IsSupportedType type
      if supported then
        objectsPass rest (names ++ [name]) (fcSet m name (FreeCadObject.make name type))
      else
        objectsPass rest names m

/-- One `Property` element applied to a retained object inside the
`ObjectData` pass. -/
def applyProperty (arch : FcArchive) (o : FreeCadObject) (pe : XmlElement) :
    Except JsErr FreeCadObject :=
  let pname := getAttribute pe "name"
  if pname = some "Label" then
    Except.ok { o with shapeName := GetFirstChildValue pe "String" "value" }
  else if pname = some "Visibility" then
    Except.ok { o with isVisible := decide (GetFirstChildValue pe "Bool" "value" = some "true") }
  else if pname = some "Visible" then
    Except.ok { o with isVisible := decide (GetFirstChildValue pe "Bool" "value" = some "true") }
  else if pname = some "Shape" then
    let fileName := GetFirstChildValue pe "Part" "file"
    if !(arch.hasFileOpt fileName) then Except.ok o
    else
      match fileName with
      | none => Except.error (JsErr.typeError "Cannot read properties of null (reading lastIndexOf)")
      | some fn =>
          let extension := GetFileExtension fn
          if decide (extension ≠ "brp") && decide (extension ≠ "brep") then Except.ok o
          else Except.ok { o with fileName := some fn, fileContent := arch.getBytes fn }
  else Except.ok o

def applyProperties (arch : FcArchive) : FreeCadObject → List XmlElement →
    Except JsErr FreeCadObject
  | o, [] => Except.ok o
  | o, pe :: rest => do
      let o1 ← applyProperty arch o pe
      applyProperties arch o1 rest

/-- One `Link` record: the inbound-link counter of its target is incremented
only when the target is a retained map entry. -/
def applyLinkStep (m : FcMap) (le : XmlElement) : FcMap :=
  let linkedName := getAttribute le "value"
  if fcHas m linkedName then
    match fcGet m linkedName with
    | some lo => fcSet m linkedName { lo with inLinkCount := lo.inLinkCount + 1 }
    | none => m
  else m

/-- The `Link` loop. -/
def applyLinks (m : FcMap) (linkEls : List XmlElement) : FcMap :=
  linkEls.foldl applyLinkStep m

/-- The `ObjectData` pass: property sections naming an unretained object are
skipped without creating an entry. -/
def objectDataPass (arch : FcArchive) : List XmlElement → FcMap → Except JsErr FcMap
  | [], m => Except.ok m
  | oe :: rest, m => do
      let name := getAttribute oe "name"
      if fcHas m name then
        match fcGet m name with
        | none => objectDataPass arch rest m
        | some o => do
            let o1 ← applyProperties arch o (getElementsByTagName oe "Property")
            let m1 := fcSet m name o1
            let m2 := applyLinks m1 (getElementsByTagName oe "Link")
            objectDataPass arch rest m2
      else objectDataPass arch rest m

/-- The `ViewProvider` pass of `LoadGuiDocumentXml`: visibility overrides for
retained objects only; entries naming anything else are ignored. -/
def guiPass : List XmlElement → FcMap → FcMap
  | [], m => m
  | vp :: rest, m =>
      let name := getAttribute vp "name"
      if fcHas m name then
        match fcGet m name with
        | none => guiPass rest m
        | some o =>
            let o1 := (getElementsByTagName vp "Property").foldl (fun o pe =>
              if getAttribute pe "name" = some "Visibility" then
                { o with isVisible := decide (GetFirstChildValue pe "Bool" "value" = some "true") }
              else o) o
            guiPass rest (fcSet m name o1)
      else guiPass rest m

/-- The flattened double loop over `Objects` sections and their `Object`
elements. -/
def sectionObjects (docXml : XmlElement) (sectionTag : String) : List XmlElement :=
  ((getElementsByTagName docXml sectionTag).map
    (fun se => getElementsByTagName se "Object")).flatten

/-- `FreeCadDocument.LoadDocumentXml`; `none` models the `false` return for a
missing Document.xml. -/
def LoadDocumentXml (arch : FcArchive) : Except JsErr (Option FreeCadDocument) :=
  match arch.getXML "Document.xml" with
  | none => Except.ok none
  | some docXml => do
      let p ← objectsPass (sectionObjects docXml "Objects") [] []
      let m ← objectDataPass arch (sectionObjects docXml "ObjectData") p.2
      Except.ok (some ⟨p.1, m⟩)

/-- `FreeCadDocument.LoadGuiDocumentXml`. -/
def LoadGuiDocumentXml (arch : FcArchive) (d : FreeCadDocument) : FreeCadDocument :=
  match arch.getXML "GuiDocument.xml" with
  | none => d
  | some g => { d with objectData := guiPass (getElementsByTagName g "ViewProvider") d.objectData }

inductive DocumentInitResult where
  | Success (d : FreeCadDocument)
  | NoDocumentXml
deriving DecidableEq

/-- `FreeCadDocument.Init`. -/
def FreeCadDocumentInit (arch : FcArchive) : Except JsErr DocumentInitResult := do
  match ← LoadDocumentXml arch with
  | none => Except.ok DocumentInitResult.NoDocumentXml
  | some d => Except.ok (DocumentInitResult.Success (LoadGuiDocumentXml arch d))

/-- The loop of `GetObjectListToConvert`; a name whose map entry is missing
would make the `IsConvertible` call on `undefined` throw. -/
def objectListGo (m : FcMap) : List (Option String) → Except JsErr (List FreeCadObject)
  | [] => Except.ok []
  | n :: ns => do
      match fcGet m n with
      | none =>
          Except.error (JsErr.typeError "Cannot read properties of undefined (reading IsConvertible)")
      | some o =>
          let rest ← objectListGo m ns
          if o.IsConvertible then Except.ok (o :: rest) else Except.ok rest

/-- `FreeCadDocument.GetObjectListToConvert`. -/
def GetObjectListToConvert (d : FreeCadDocument) : Except JsErr (List FreeCadObject) :=
  objectListGo d.objectData d.objectNames

/-! ## Serialized conversion queue (ImporterFcstd.ConvertObjects) -/

/-- A raw mesh record of a successful kernel response; opaque payload. -/
structure RawMesh where
  payload : List Nat
deriving DecidableEq

/-- A message-event payload of the kernel channel. -/
structure OcctPayload where
  success : Bool
  meshes : List RawMesh
deriving DecidableEq

structure FcMesh where
  name : Option String
  raw : RawMesh
deriving DecidableEq

inductive NodeType where
  | MeshNode
  | GroupNode
deriving DecidableEq

structure FcNode where
  ntype : NodeType
  name : Option String
  meshIndices : List Nat
deriving DecidableEq

structure FcModel where
  meshes : List FcMesh
  rootChildren : List FcNode
deriving DecidableEq

/-- Modelled from the spec: `ConvertThreeGeometryToMesh` (threejs/threeutils.js,
not under src/) turns one raw kernel mesh record into a unified-model mesh. -/
def ConvertThreeGeometryToMesh (r : RawMesh) : FcMesh :=
  { name := none, raw := r }

/-- `toString().padStart(3, '0')`. -/
def pad3 (n : Nat) : String :=
  let s := toString n
  if s.length ≥ 3 then s else String.mk (List.replicate (3 - s.length) '0') ++ s

/-- The result-mesh loop of `OnFileConverted`: meshes named
`"<label> <3-digit index>"` (labels counted from 1) when a label exists, added
to the model and referenced from the object's group node. -/
def addMeshesGo (shapeName : Option String) :
    FcModel → FcNode → List RawMesh → Nat → FcModel × FcNode
  | model, node, [], _ => (model, node)
  | model, node, r :: rs, objectMeshIndex =>
      let mesh0 := ConvertThreeGeometryToMesh r
      let mesh :=
        match shapeName with
        | some sn => { mesh0 with name := some (sn ++ " " ++ pad3 objectMeshIndex) }
        | none => mesh0
      let meshIndex := model.meshes.length
      addMeshesGo shapeName { model with meshes := model.meshes ++ [mesh] }
        { node with meshIndices := node.meshIndices ++ [meshIndex] } rs (objectMeshIndex + 1)

/-- `ImporterFcstd.OnFileConverted`. -/
def OnFileConverted (o : FreeCadObject) (res : OcctPayload) (model : FcModel) : FcModel :=
  if !res.success || res.meshes.length = 0 then model
  else
    let node0 : FcNode := { ntype := NodeType.GroupNode, name := o.shapeName, meshIndices := [] }
    let p := addMeshesGo o.shapeName model node0 res.meshes 1
    { p.1 with rootChildren := p.1.rootChildren ++ [p.2] }

structure QueueState where
  model : FcModel
  requests : Nat
  finishes : Nat
deriving DecidableEq

/-- Handling one worker response: an error event (`none`) contributes nothing,
a message event runs `OnFileConverted`. -/
def convStep (resp : Nat → Option OcctPayload) (o : FreeCadObject) (k : Nat)
    (st : QueueState) : QueueState :=
  match resp k with
  | none => st
  | some payload => { st with model := OnFileConverted o payload st.model }

/-- The response-driven loop of `ConvertObjects`: `resp k` is what the worker
delivers for the `k`-th request (`none` models an error event, `some` a
message event). After handling response `k` the queue either invokes the
completion callback (all objects answered) or posts the next request. -/
def convLoop (resp : Nat → Option OcctPayload) :
    List FreeCadObject → Nat → QueueState → QueueState
  | [], _, st => st
  | o :: rest, k, st =>
      let st1 := convStep resp o k st
      match rest with
      | [] => { st1 with finishes := st1.finishes + 1 }
      | _ :: _ => convLoop resp rest (k+1) { st1 with requests := st1.requests + 1 }

/-- `ImporterFcstd.ConvertObjects`: the first request is posted
unconditionally from `objects[0].fileContent`, so an empty object list makes
the property access on `undefined` throw before any request or completion. -/
def ConvertObjects (objects : List FreeCadObject) (resp : Nat → Option OcctPayload)
    (model : FcModel) : Except JsErr QueueState :=
  match objects with
  | [] => Except.error (JsErr.typeError "Cannot read properties of undefined (reading fileContent)")
  | _ :: _ => Except.ok (convLoop resp objects 0 { model := model, requests := 1, finishes := 0 })

structure FcImportResult where
  model : FcModel
  errorMessage : Option String
  finishes : Nat
  requests : Nat
deriving DecidableEq

/-- `ImporterFcstd.ImportContent`. -/
def FcstdImportContent (arch : FcArchive) (resp : Nat → Option OcctPayload) :
    Except JsErr FcImportResult := do
  match ← FreeCadDocumentInit arch with
  | DocumentInitResult.NoDocumentXml =>
      Except.ok { model := ⟨[], []⟩, errorMessage := some "No Document.xml found.",
                  finishes := 1, requests := 0 }
  | DocumentInitResult.Success d => do
      let objects ← GetObjectListToConvert d
      let q ← ConvertObjects objects resp ⟨[], []⟩
      Except.ok { model := q.model, errorMessage := none,
                  finishes := q.finishes, requests := q.requests }

/-! ## Shared helper lemmas -/

theorem except_bind_ok {ε α β : Type} (a : α) (f : α → Except ε β) :
    (Except.ok a : Except ε α) >>= f = f a := rfl

theorem except_bind_err {ε α β : Type} (e : ε) (f : α → Except ε β) :
    (Except.error e : Except ε α) >>= f = Except.error e := rfl

theorem get?_of_prefix {α : Type} {l1 l2 : List α} (h : l1 <+: l2) {i : Nat} {x : α}
    (hx : l1.get? i = some x) : l2.get? i = some x := by
  obtain ⟨t, rfl⟩ := h
  have hi : i < l1.length := (List.get?_eq_some.mp hx).1
  rw [List.get?_append hi]
  exact hx

/-- The 1.1.0 mode test `colors.length / 4 >= indices_length` in integers. -/
theorem vertexColorModeCond_iff (csLen L : Nat) :
    vertexColorModeCond csLen L ↔ 4 * L ≤ csLen := by
  unfold vertexColorModeCond
  rw [ge_iff_le, le_div_iff₀ (by norm_num : (0:ℚ) < 4)]
  constructor
  · intro h
    have h2 : ((4 * L : ℕ) : ℚ) ≤ (csLen : ℚ) := by push_cast; linarith
    exact_mod_cast h2
  · intro h
    have h2 : ((4 * L : ℕ) : ℚ) ≤ (csLen : ℚ) := Nat.cast_le.mpr h
    push_cast at h2
    linarith

/-- Converting a `[0,255]` channel to a normalized opacity and back is the
identity. -/
theorem fromFloat_toFloat (a : JNum) :
    ColorComponentFromFloat (ColorComponentToFloat a) = a := by
  cases a with
  | none => rfl
  | some v =>
      show some (jsRound ((v : ℚ) / 255 * 255)) = some v
      have h1 : (v : ℚ) / 255 * 255 = (v : ℚ) := by field_simp
      rw [h1]
      unfold jsRound
      rw [add_comm, Int.floor_add_int]
      have h2 : ⌊(1 : ℚ) / 2⌋ = 0 := by
        rw [Int.floor_eq_zero_iff]
        constructor <;> norm_num
      rw [h2, zero_add]

/-! ## Claim C9: IsOnlyUrlSource -/

/-- C9, counterexample: the claim says `IsOnlyUrlSource` is true iff every
file's source kind is Url and that it is insensitive to any non-Url source
kind; but a single file whose source kind is `Decompressed` — not Url — makes
it return `true`. (It also returns `false` on the empty list although every
file of the empty list is vacuously a Url source.) -/
theorem isOnlyUrlSource_claim_false :
    IsOnlyUrlSource ⟨[⟨"model.obj", "obj", FileSource.Decompressed, none⟩]⟩ = true ∧
    FileSource.Decompressed ≠ FileSource.Url ∧
    IsOnlyUrlSource ⟨[]⟩ = false := by
  refine ⟨rfl, ?_, rfl⟩
  decide

theorem fileSourceOk_iff (f : ImporterFile) :
    (!(decide (f.source ≠ FileSource.Url) && decide (f.source ≠ FileSource.Decompressed))) = true ↔
      f.source = FileSource.Url ∨ f.source = FileSource.Decompressed := by
  cases hf : f.source <;> simp [hf]

/-- C9, amended: `IsOnlyUrlSource` returns true iff the file list is nonempty
and every file's source kind is Url or Decompressed. -/
theorem isOnlyUrlSource_iff (l : ImporterFileList) :
    IsOnlyUrlSource l = true ↔
      l.files ≠ [] ∧
        ∀ f ∈ l.files, f.source = FileSource.Url ∨ f.source = FileSource.Decompressed := by
  rcases l with ⟨files⟩
  cases files with
  | nil => simp [IsOnlyUrlSource]
  | cons f fs =>
      simp only [IsOnlyUrlSource]
      rw [if_neg (by simp)]
      simp only [List.all_eq_true]
      constructor
      · intro h
        refine ⟨by simp, ?_⟩
        intro g hg
        exact (fileSourceOk_iff g).mp (h g hg)
      · intro h g hg
        exact (fileSourceOk_iff g).mpr (h.2 g hg)

/-! ## Claims C6, C7, C8, C1: the BIM decoder -/

def bimInitState : BimImportState := ⟨⟨[], [], []⟩, []⟩

/-- An element with no legacy face colors and no element color. -/
def plainElement (id : Int) : BimElement :=
  { mesh_id := id, type := some "Wall", color := none, face_colors := none,
    vector := none, rotation := none, guid := none }

def triCoordinates : List JReal :=
  [some 0, some 0, some 0, some 1, some 0, some 0, some 0, some 1, some 0]

/-- C6: an element whose `mesh_id` matches no mesh does not get reported and
skipped: the decoder dereferences the missing mesh (`bimMesh.colors`) and the
`TypeError` propagates out of `ImportContent` — the importer boundary — so the
remaining elements are never processed. -/
theorem bim_missing_mesh_throws :
    BimImportContent ⟨"1.1.0", [], [plainElement 7, plainElement 7]⟩ =
      Except.error (JsErr.typeError "Cannot read properties of undefined (reading colors)") := by
  rfl

def colorlessMesh : BimMesh :=
  { mesh_id := 0, coordinates := triCoordinates, indices := [some 0, some 1, some 2],
    colors := none }

/-- C7: a mesh with neither a legacy face-color array nor a packed colors
array is not given a default gray material: `ImportElement` leaves the mesh
`null` (no branch assigns it), and `ImportContent` then throws calling
`SetName` on it, instead of producing a valid mesh. -/
theorem bim_colorless_mesh_throws :
    ImportElement [colorlessMesh] (plainElement 0) bimInitState =
      Except.ok (none, bimInitState) ∧
    BimImportContent ⟨"1.1.0", [colorlessMesh], [plainElement 0]⟩ =
      Except.error (JsErr.typeError "Cannot read properties of null (reading SetName)") := by
  exact ⟨rfl, rfl⟩

def vcMeshColors : List JNum :=
  [some 10, some 20, some 30, some 255, some 40, some 50, some 60, some 255,
   some 70, some 80, some 90, some 255]

/-- A mesh with one triangle and twelve packed color entries (three distinct
RGBA colors), which selects vertex-color mode. -/
def vcMesh : BimMesh :=
  { mesh_id := 0, coordinates := triCoordinates, indices := [some 0, some 1, some 2],
    colors := some vcMeshColors }

/-- C8: in vertex-color mode the triangle does not receive three per-vertex
color entries taken from its twelve consecutive color values: the callback
pushes its accumulator array into itself once, so the triangle's vertex-color
slots are `(index 0, undefined, undefined)` and the only "color" deduplicated
into the mesh is the all-`undefined` channel tuple of that array — none of the
twelve values of the `colors` array reaches the mesh. -/
theorem bim_vertex_color_entries_broken :
    ((12 : ℚ) / 4 ≥ (3 : ℚ)) ∧
    (ImportElement [vcMesh] (plainElement 0) bimInitState).map (fun p =>
        p.2.model.meshes.map (fun m => m.triangles.map (fun tr => tr.vertexColors))) =
      Except.ok [[some (some 0, none, none)]] ∧
    (ImportElement [vcMesh] (plainElement 0) bimInitState).map (fun p =>
        p.2.model.meshes.map (fun m => m.vcolors)) =
      Except.ok [[(none, none, none, none)]] := by
  refine ⟨by norm_num, rfl, rfl⟩

def c1Mesh : BimMesh :=
  { mesh_id := 0, coordinates := triCoordinates, indices := [some 0, some 1, some 2],
    colors := some [some 10, some 20, some 30, some 255, some 40, some 50, some 60, some 255] }

/-- C1, counterexample: this mesh has `colors.length/4 = 2 ≥ 1 = indices.length/3`,
so the claim demands vertex-color mode; the decoder nevertheless produces a
material-mode mesh (the source compares `colors.length/4` against
`indices.length`, not against `indices.length/3`). -/
theorem bim_mode_claim_false :
    ((8 : ℚ) / 4 ≥ (3 : ℚ) / 3) ∧
    (ImportElement [c1Mesh] (plainElement 0) bimInitState).map (fun p =>
        p.2.model.meshes.map (fun m => m.triangles.map (fun tr => (tr.mat, tr.vertexColors)))) =
      Except.ok [[(some 0, none)]] := by
  refine ⟨by norm_num, rfl⟩

theorem buildTrisMat_mode (indices : List JNum) (getMat : Nat → BimImportState → Nat × BimImportState) :
    ∀ (ts : List Nat) (st : BimImportState),
      ∀ tr ∈ (buildTrisMat indices getMat ts st).1, tr.mat.isSome = true ∧ tr.vertexColors = none := by
  intro ts
  induction ts with
  | nil => intro st tr htr; simp [buildTrisMat] at htr
  | cons t ts ih =>
      intro st tr htr
      simp only [buildTrisMat, List.mem_cons] at htr
      rcases htr with h | h
      · subst h; exact ⟨rfl, rfl⟩
      · exact ih _ tr h

theorem buildTrisMat_length (indices : List JNum) (getMat : Nat → BimImportState → Nat × BimImportState) :
    ∀ (ts : List Nat) (st : BimImportState), (buildTrisMat indices getMat ts st).1.length = ts.length := by
  intro ts
  induction ts with
  | nil => intro st; rfl
  | cons t ts ih => intro st; simp [buildTrisMat, ih]

theorem buildTrisVC_mode (indices : List JNum) (getVertexColors : Nat → List JsColorVal) :
    ∀ (ts : List Nat) (st : VColorState),
      ∀ tr ∈ (buildTrisVC indices getVertexColors ts st).1, tr.mat = none ∧ tr.vertexColors.isSome = true := by
  intro ts
  induction ts with
  | nil => intro st tr htr; simp [buildTrisVC] at htr
  | cons t ts ih =>
      intro st tr htr
      simp only [buildTrisVC, List.mem_cons] at htr
      rcases htr with h | h
      · subst h; exact ⟨rfl, rfl⟩
      · exact ih _ tr h

theorem buildTrisVC_length (indices : List JNum) (getVertexColors : Nat → List JsColorVal) :
    ∀ (ts : List Nat) (st : VColorState), (buildTrisVC indices getVertexColors ts st).1.length = ts.length := by
  intro ts
  induction ts with
  | nil => intro st; rfl
  | cons t ts ih => intro st; simp [buildTrisVC, ih]

/-- C1, amended: for every element without a legacy face-color array whose
referenced mesh carries a packed colors array, the decoder builds one mesh and
selects vertex-color mode for the whole mesh exactly when
`colors.length / 4 ≥ indices.length` (not `indices.length / 3`), and material
mode for the whole mesh otherwise. -/
theorem bim_mode_selection (meshes : List BimMesh) (el : BimElement) (bm : BimMesh)
    (cs : List JNum) (st : BimImportState)
    (hm : meshMapGet meshes el.mesh_id = some bm)
    (hfc : el.face_colors = none)
    (hcs : bm.colors = some cs) :
    ∃ idx st2, ImportElement meshes el st = Except.ok (some idx, st2) ∧
      ∃ mesh, st2.model.meshes.get? idx = some mesh ∧
        mesh.triangles.length = strideCount bm.indices.length ∧
        (if vertexColorModeCond cs.length bm.indices.length
         then ∀ tr ∈ mesh.triangles, tr.mat = none ∧ tr.vertexColors.isSome = true
         else ∀ tr ∈ mesh.triangles, tr.mat.isSome = true ∧ tr.vertexColors = none) := by
  cases hc : el.color with
  | none =>
      simp only [ImportElement, hc, hm, hfc, hcs]
      by_cases hcond : vertexColorModeCond cs.length bm.indices.length
      · simp only [hcond, if_pos]
        refine ⟨_, _, rfl, ?_⟩
        refine ⟨_, List.get?_concat_length _ _, ?_, ?_⟩
        · simp [ImportMeshVertexColors, buildTrisVC_length]
        · intro tr htr
          exact buildTrisVC_mode _ _ _ _ tr htr
      · simp only [hcond, if_neg, ite_false]
        refine ⟨_, _, rfl, ?_⟩
        refine ⟨_, List.get?_concat_length _ _, ?_, ?_⟩
        · simp [ImportMeshMaterial, buildTrisMat_length]
        · intro tr htr
          exact buildTrisMat_mode _ _ _ _ tr htr
  | some c =>
      simp only [ImportElement, hc, hm, hfc, hcs]
      by_cases hcond : vertexColorModeCond cs.length bm.indices.length
      · simp only [hcond, if_pos]
        refine ⟨_, _, rfl, ?_⟩
        refine ⟨_, List.get?_concat_length _ _, ?_, ?_⟩
        · simp [ImportMeshVertexColors, buildTrisVC_length]
        · intro tr htr
          exact buildTrisVC_mode _ _ _ _ tr htr
      · simp only [hcond, if_neg, ite_false]
        refine ⟨_, _, rfl, ?_⟩
        refine ⟨_, List.get?_concat_length _ _, ?_, ?_⟩
        · simp [ImportMeshMaterial, buildTrisMat_length]
        · intro tr htr
          exact buildTrisMat_mode _ _ _ _ tr htr

/-- C1, witness: the amended mode-selection theorem applied to a concrete
one-triangle mesh with twelve packed color entries. -/
theorem bim_mode_selection_witness :
    meshMapGet [vcMesh] (plainElement 0).mesh_id = some vcMesh ∧
    (plainElement 0).face_colors = none ∧
    (∃ idx st2, ImportElement [vcMesh] (plainElement 0) bimInitState = Except.ok (some idx, st2) ∧
      ∃ mesh, st2.model.meshes.get? idx = some mesh ∧
        mesh.triangles.length = strideCount vcMesh.indices.length ∧
        (if vertexColorModeCond vcMeshColors.length vcMesh.indices.length
         then ∀ tr ∈ mesh.triangles, tr.mat = none ∧ tr.vertexColors.isSome = true
         else ∀ tr ∈ mesh.triangles, tr.mat.isSome = true ∧ tr.vertexColors = none)) :=
  ⟨rfl, rfl, bim_mode_selection [vcMesh] (plainElement 0) vcMesh vcMeshColors bimInitState rfl rfl rfl⟩

/-! ## Claim C5: import of an archive with zero eligible objects -/

/-- An archive whose Document.xml declares no convertible objects. -/
def emptyDocArchive : FcArchive :=
  ⟨[("Document.xml", ⟨[60, 68, 62], ⟨"Document", [], [⟨"Objects", [], []⟩]⟩⟩)]⟩

/-- C5: for an archive whose document yields zero eligible objects, the import
does not finish successfully with an empty contribution: `ConvertObjects`
dereferences `objects[0].fileContent` on an empty list, and the resulting
`TypeError` escapes `ImportContent`; the completion callback is never
invoked. -/
theorem fcstd_zero_objects_throws :
    FcstdImportContent emptyDocArchive (fun _ => none) =
      Except.error (JsErr.typeError "Cannot read properties of undefined (reading fileContent)") ∧
    ConvertObjects [] (fun _ => none) ⟨[], []⟩ =
      Except.error (JsErr.typeError "Cannot read properties of undefined (reading fileContent)") := by
  exact ⟨rfl, rfl⟩

/-! ## Claim C3: the convertible-object list -/

theorem isConvertible_iff (o : FreeCadObject) :
    o.IsConvertible = true ↔
      o.fileName.isSome = true ∧ o.fileContent.isSome = true ∧
        o.isVisible = true ∧ o.inLinkCount = 0 := by
  unfold FreeCadObject.IsConvertible
  rcases o with ⟨n, t, sn, v, fn, fc, lc⟩
  cases fn <;> cases fc <;> cases v <;> simp

theorem objectListGo_spec (m : FcMap) :
    ∀ ns : List (Option String), (∀ n ∈ ns, (fcGet m n).isSome = true) →
      objectListGo m ns = Except.ok (ns.filterMap (fun n =>
        (fcGet m n).bind (fun o =>
          if o.fileName.isSome = true ∧ o.fileContent.isSome = true ∧
              o.isVisible = true ∧ o.inLinkCount = 0
          then some o else none))) := by
  intro ns
  induction ns with
  | nil => intro _; rfl
  | cons n ns ih =>
      intro h
      have hn : (fcGet m n).isSome = true := h n (List.mem_cons_self n ns)
      obtain ⟨o, ho⟩ := Option.isSome_iff_exists.mp hn
      have ihh := ih (fun x hx => h x (List.mem_cons_of_mem n hx))
      simp only [objectListGo, ho, List.filterMap_cons, Option.some_bind, ihh]
      rw [except_bind_ok]
      by_cases hc : o.IsConvertible = true
      · rw [if_pos ((isConvertible_iff o).mp hc), if_pos hc]
      · rw [if_neg (fun hx => hc ((isConvertible_iff o).mpr hx)), if_neg hc]

/-- C3: an object appears in the list returned for conversion iff it is
reachable from the declared object list, has an attached geometry blob (file
name and content), is visible, and has inbound-link count zero; the list is in
object-list declaration order. -/
theorem object_list_to_convert (d : FreeCadDocument)
    (h : ∀ n ∈ d.objectNames, (fcGet d.objectData n).isSome = true) :
    GetObjectListToConvert d = Except.ok (d.objectNames.filterMap (fun n =>
      (fcGet d.objectData n).bind (fun o =>
        if o.fileName.isSome = true ∧ o.fileContent.isSome = true ∧
            o.isVisible = true ∧ o.inLinkCount = 0
        then some o else none))) :=
  objectListGo_spec d.objectData d.objectNames h

/-- C3, witness: a concrete document with a convertible object, an invisible
one, a blob-less one, and a linked one. -/
def w3Conv : FreeCadObject :=
  { name := some "A", type := some "Part::Box", shapeName := some "A", isVisible := true,
    fileName := some "a.brp", fileContent := some [1], inLinkCount := 0 }

def w3Invisible : FreeCadObject :=
  { w3Conv with name := some "B", isVisible := false }

def w3NoBlob : FreeCadObject :=
  { w3Conv with name := some "C", fileName := none, fileContent := none }

def w3Linked : FreeCadObject :=
  { w3Conv with name := some "D", inLinkCount := 1 }

def w3Doc : FreeCadDocument :=
  { objectNames := [some "A", some "B", some "C", some "D"],
    objectData := [(some "A", w3Conv), (some "B", w3Invisible),
                   (some "C", w3NoBlob), (some "D", w3Linked)] }

theorem object_list_to_convert_witness :
    (∀ n ∈ w3Doc.objectNames, (fcGet w3Doc.objectData n).isSome = true) ∧
    GetObjectListToConvert w3Doc = Except.ok (w3Doc.objectNames.filterMap (fun n =>
      (fcGet w3Doc.objectData n).bind (fun o =>
        if o.fileName.isSome = true ∧ o.fileContent.isSome = true ∧
            o.isVisible = true ∧ o.inLinkCount = 0
        then some o else none))) ∧
    GetObjectListToConvert w3Doc = Except.ok [w3Conv] :=
  ⟨by decide, object_list_to_convert w3Doc (by decide), by rfl⟩

/-! ## Claim C4: the serialized conversion queue under one failure -/

/-- A failed kernel response: an error event or an unsuccessful payload. -/
def failedResp (r : Option OcctPayload) : Prop :=
  r = none ∨ ∃ p, r = some p ∧ p.success = false

/-- The group-node summary (type, name) an object's response contributes under
the root node. -/
def nodeSummary (o : FreeCadObject) (r : Option OcctPayload) : List (NodeType × Option String) :=
  match r with
  | none => []
  | some p =>
      if !p.success || p.meshes.length = 0 then [] else [(NodeType.GroupNode, o.shapeName)]

def summaries (resp : Nat → Option OcctPayload) :
    List FreeCadObject → Nat → List (NodeType × Option String)
  | [], _ => []
  | o :: rest, k0 => nodeSummary o (resp k0) ++ summaries resp rest (k0+1)

theorem addMeshesGo_node (sn : Option String) :
    ∀ (rs : List RawMesh) (model : FcModel) (node : FcNode) (i : Nat),
      (addMeshesGo sn model node rs i).1.rootChildren = model.rootChildren ∧
      (addMeshesGo sn model node rs i).2.ntype = node.ntype ∧
      (addMeshesGo sn model node rs i).2.name = node.name := by
  intro rs
  induction rs with
  | nil => intro model node i; exact ⟨rfl, rfl, rfl⟩
  | cons r rs ih =>
      intro model node i
      simp only [addMeshesGo]
      exact ih _ _ _

theorem onFileConverted_children (o : FreeCadObject) (p : OcctPayload) (model : FcModel) :
    (OnFileConverted o p model).rootChildren.map (fun nd => (nd.ntype, nd.name)) =
      model.rootChildren.map (fun nd => (nd.ntype, nd.name)) ++ nodeSummary o (some p) := by
  unfold OnFileConverted nodeSummary
  by_cases hc : (!p.success || decide (p.meshes.length = 0)) = true
  · simp only [hc]
    simp
  · simp only [hc]
    obtain ⟨h1, h2, h3⟩ :=
      addMeshesGo_node o.shapeName p.meshes model ⟨NodeType.GroupNode, o.shapeName, []⟩ 1
    simp [h1, h2, h3]

theorem convStep_spec (resp : Nat → Option OcctPayload) (o : FreeCadObject) (k : Nat)
    (st : QueueState) :
    (convStep resp o k st).requests = st.requests ∧
    (convStep resp o k st).finishes = st.finishes ∧
    (convStep resp o k st).model.rootChildren.map (fun nd => (nd.ntype, nd.name)) =
      st.model.rootChildren.map (fun nd => (nd.ntype, nd.name)) ++ nodeSummary o (resp k) := by
  unfold convStep
  cases hr : resp k with
  | none => simp [nodeSummary]
  | some p => exact ⟨rfl, rfl, onFileConverted_children o p st.model⟩

theorem convLoop_run (resp : Nat → Option OcctPayload) :
    ∀ (pending : List FreeCadObject) (k0 : Nat) (st : QueueState), pending ≠ [] →
      (convLoop resp pending k0 st).requests = st.requests + (pending.length - 1) ∧
      (convLoop resp pending k0 st).finishes = st.finishes + 1 ∧
      (convLoop resp pending k0 st).model.rootChildren.map (fun nd => (nd.ntype, nd.name)) =
        st.model.rootChildren.map (fun nd => (nd.ntype, nd.name)) ++ summaries resp pending k0 := by
  intro pending
  induction pending with
  | nil => intro k0 st h; exact absurd rfl h
  | cons o rest ih =>
      intro k0 st _
      obtain ⟨h1, h2, h3⟩ := convStep_spec resp o k0 st
      cases hrest : rest with
      | nil =>
          subst hrest
          simp only [convLoop, summaries, List.append_nil, List.length_cons,
            List.length_nil]
          exact ⟨h1, by rw [h2], h3⟩
      | cons r2 rs2 =>
          subst hrest
          simp only [convLoop]
          obtain ⟨g1, g2, g3⟩ := ih (k0+1)
            ⟨(convStep resp o k0 st).model, (convStep resp o k0 st).requests + 1,
             (convStep resp o k0 st).finishes⟩
            (List.cons_ne_nil r2 rs2)
          refine ⟨g1.trans ?_, g2.trans ?_, g3.trans ?_⟩
          · show (convStep resp o k0 st).requests + 1 + ((r2 :: rs2).length - 1) =
              st.requests + ((o :: r2 :: rs2).length - 1)
            simp only [h1, List.length_cons]
            omega
          · show (convStep resp o k0 st).finishes + 1 = st.finishes + 1
            rw [h2]
          · show (convStep resp o k0 st).model.rootChildren.map (fun nd => (nd.ntype, nd.name)) ++
                summaries resp (r2 :: rs2) (k0 + 1) =
              st.model.rootChildren.map (fun nd => (nd.ntype, nd.name)) ++
                summaries resp (o :: r2 :: rs2) k0
            rw [h3, List.append_assoc]
            rfl

theorem summaries_all_success (resp : Nat → Option OcctPayload) :
    ∀ (objects : List FreeCadObject) (k0 : Nat),
      (∀ j, j < objects.length →
        ∃ p, resp (k0 + j) = some p ∧ p.success = true ∧ p.meshes ≠ []) →
      summaries resp objects k0 =
        objects.map (fun o => (NodeType.GroupNode, o.shapeName)) := by
  intro objects
  induction objects with
  | nil => intro k0 _; rfl
  | cons o rest ih =>
      intro k0 h
      obtain ⟨p, hp, hs, hm⟩ := h 0 (Nat.succ_pos _)
      rw [Nat.add_zero] at hp
      have hrest := ih (k0+1) (fun j hj => by
        obtain ⟨p2, hp2, hs2, hm2⟩ := h (j+1) (Nat.succ_lt_succ hj)
        refine ⟨p2, ?_, hs2, hm2⟩
        rw [← hp2]
        congr 1
        omega)
      simp [summaries, hrest, nodeSummary, hp, hs, hm]

theorem summaries_skip_failed (resp : Nat → Option OcctPayload) :
    ∀ (objects : List FreeCadObject) (k0 k : Nat), k < objects.length →
      failedResp (resp (k0 + k)) →
      (∀ j, j < objects.length → j ≠ k →
        ∃ p, resp (k0 + j) = some p ∧ p.success = true ∧ p.meshes ≠ []) →
      summaries resp objects k0 =
        (objects.eraseIdx k).map (fun o => (NodeType.GroupNode, o.shapeName)) := by
  intro objects
  induction objects with
  | nil => intro k0 k hk; exact absurd hk (by simp)
  | cons o rest ih =>
      intro k0 k hk hfail hsucc
      cases k with
      | zero =>
          rw [Nat.add_zero] at hfail
          have hns : nodeSummary o (resp k0) = [] := by
            rcases hfail with h | ⟨p, hp, hps⟩
            · simp [nodeSummary, h]
            · simp [nodeSummary, hp, hps]
          have hrest := summaries_all_success resp rest (k0+1) (fun j hj => by
            obtain ⟨p2, hp2, hs2, hm2⟩ := hsucc (j+1) (Nat.succ_lt_succ hj) (Nat.succ_ne_zero j)
            refine ⟨p2, ?_, hs2, hm2⟩
            rw [← hp2]
            congr 1
            omega)
          simp [summaries, hns, hrest, List.eraseIdx]
      | succ k2 =>
          have hk2 : k2 < rest.length := Nat.lt_of_succ_lt_succ hk
          have hfail2 : failedResp (resp (k0 + 1 + k2)) := by
            have : k0 + 1 + k2 = k0 + (k2 + 1) := by omega
            rw [this]; exact hfail
          have hsucc2 : ∀ j, j < rest.length → j ≠ k2 →
              ∃ p, resp (k0 + 1 + j) = some p ∧ p.success = true ∧ p.meshes ≠ [] := by
            intro j hj hjk
            obtain ⟨p2, hp2, hs2, hm2⟩ :=
              hsucc (j+1) (Nat.succ_lt_succ hj) (fun hx => hjk (Nat.succ_injective hx))
            refine ⟨p2, ?_, hs2, hm2⟩
            rw [← hp2]
            congr 1
            omega
          have hhead : nodeSummary o (resp k0) = [(NodeType.GroupNode, o.shapeName)] := by
            obtain ⟨p, hp, hs, hm⟩ := hsucc 0 (Nat.succ_pos _) (by omega : (0:Nat) ≠ k2 + 1)
            rw [Nat.add_zero] at hp
            simp [nodeSummary, hp, hs, hm]
          rw [List.eraseIdx_cons_succ]
          simp only [summaries, hhead, List.map_cons, List.cons_append, List.nil_append]
          rw [ih (k0+1) k2 hk2 hfail2 hsucc2]

/-- C4: with N convertible objects of which exactly object k's kernel request
fails, the queue issues exactly N requests, invokes the completion callback
exactly once, and the model gains one group node per object except object k,
in order. -/
theorem conversion_queue_one_failure (objects : List FreeCadObject)
    (resp : Nat → Option OcctPayload) (k : Nat) (model0 : FcModel)
    (hk : k < objects.length)
    (hfail : failedResp (resp k))
    (hsucc : ∀ j, j < objects.length → j ≠ k →
      ∃ p, resp j = some p ∧ p.success = true ∧ p.meshes ≠ []) :
    ∃ st, ConvertObjects objects resp model0 = Except.ok st ∧
      st.requests = objects.length ∧
      st.finishes = 1 ∧
      st.model.rootChildren.map (fun nd => (nd.ntype, nd.name)) =
        model0.rootChildren.map (fun nd => (nd.ntype, nd.name)) ++
          (objects.eraseIdx k).map (fun o => (NodeType.GroupNode, o.shapeName)) := by
  cases hobj : objects with
  | nil => rw [hobj] at hk; exact absurd hk (by simp)
  | cons o rest =>
      rw [← hobj]
      have hne : objects ≠ [] := by rw [hobj]; exact List.cons_ne_nil o rest
      refine ⟨convLoop resp objects 0 ⟨model0, 1, 0⟩, ?_, ?_, ?_, ?_⟩
      · unfold ConvertObjects
        rw [hobj]
      · obtain ⟨h1, _, _⟩ := convLoop_run resp objects 0 ⟨model0, 1, 0⟩ hne
        rw [h1]
        have : objects.length ≥ 1 := by rw [hobj]; simp
        simp only
        omega
      · obtain ⟨_, h2, _⟩ := convLoop_run resp objects 0 ⟨model0, 1, 0⟩ hne
        rw [h2]
      · obtain ⟨_, _, h3⟩ := convLoop_run resp objects 0 ⟨model0, 1, 0⟩ hne
        rw [h3]
        have hs := summaries_skip_failed resp objects 0 k hk
          (by rw [Nat.zero_add]; exact hfail)
          (fun j hj hjk => by rw [Nat.zero_add]; exact hsucc j hj hjk)
        rw [hs]

def qObj (nm : String) : FreeCadObject :=
  { name := some nm, type := some "Part::Box", shapeName := some nm, isVisible := true,
    fileName := some (nm ++ ".brp"), fileContent := some [1], inLinkCount := 0 }

def qPayload : OcctPayload := ⟨true, [⟨[5]⟩, ⟨[6]⟩]⟩

def qResp : Nat → Option OcctPayload :=
  fun k => if k = 1 then none else some qPayload

/-- C4, witness: three objects whose second kernel request errors. -/
theorem conversion_queue_one_failure_witness :
    ∃ st, ConvertObjects [qObj "A", qObj "B", qObj "C"] qResp ⟨[], []⟩ = Except.ok st ∧
      st.requests = [qObj "A", qObj "B", qObj "C"].length ∧
      st.finishes = 1 ∧
      st.model.rootChildren.map (fun nd => (nd.ntype, nd.name)) =
        (⟨[], []⟩ : FcModel).rootChildren.map (fun nd => (nd.ntype, nd.name)) ++
          ([qObj "A", qObj "B", qObj "C"].eraseIdx 1).map
            (fun o => (NodeType.GroupNode, o.shapeName)) :=
  conversion_queue_one_failure [qObj "A", qObj "B", qObj "C"] qResp 1 ⟨[], []⟩
    (by simp)
    (Or.inl rfl)
    (by
      intro j hj hjk
      simp only [List.length_cons, List.length_nil] at hj
      interval_cases j
      · exact ⟨qPayload, rfl, rfl, by simp [qPayload]⟩
      · exact absurd rfl hjk
      · exact ⟨qPayload, rfl, rfl, by simp [qPayload]⟩)

/-! ## Claim C10: the object map built by document parsing -/

/-- The supported-type test as a pure boolean (the `null`-free case of
`IsSupportedType`). -/
def supportedTypeB (t : String) : Bool :=
  (t.startsWith "Part::" || t.startsWith "PartDesign::") &&
    !(decide ((t.splitOn "Part2D").length > 1))

theorem isSupportedType_some (t : String) :
    IsSupportedType (some t) = Except.ok (supportedTypeB t) := by
  unfold IsSupportedType supportedTypeB
  cases hp1 : t.startsWith "Part::" <;> cases hp2 : t.startsWith "PartDesign::" <;>
    by_cases hc : (t.splitOn "Part2D").length > 1 <;> simp [hp1, hp2, hc]

/-- The names an Objects section declares with a supported type, in
declaration order. -/
def declaredNamesOf (els : List XmlElement) : List (Option String) :=
  els.filterMap (fun oe =>
    match getAttribute oe "type" with
    | none => none
    | some t => if supportedTypeB t then some (getAttribute oe "name") else none)

def declaredSupportedNames (docXml : XmlElement) : List (Option String) :=
  declaredNamesOf (sectionObjects docXml "Objects")

theorem fcHas_eq_isSome (m : FcMap) (k : Option String) :
    fcHas m k = (fcGet m k).isSome := by
  induction m with
  | nil => rfl
  | cons p ps ih =>
      by_cases h : p.1 = k
      · simp [fcHas, fcGet, List.find?, h]
      · simp only [fcHas, fcGet, List.any_cons, List.find?]
        rw [decide_eq_false h]
        simpa [fcHas, fcGet] using ih

theorem fcGet_cons_pos (p : Option String × FreeCadObject) (ps : FcMap) (n : Option String)
    (h : p.1 = n) : fcGet (p :: ps) n = some p.2 := by
  unfold fcGet
  rw [List.find?_cons_of_pos _ (by simpa using h)]
  rfl

theorem fcGet_cons_neg (p : Option String × FreeCadObject) (ps : FcMap) (n : Option String)
    (h : ¬p.1 = n) : fcGet (p :: ps) n = fcGet ps n := by
  unfold fcGet
  rw [List.find?_cons_of_neg _ (by simpa using h)]

theorem fcGet_map_update_self (k : Option String) (v : FreeCadObject) :
    ∀ m : FcMap, fcHas m k = true →
      fcGet (m.map (fun p => if p.1 = k then (k, v) else p)) k = some v := by
  intro m
  induction m with
  | nil => intro h; simp [fcHas] at h
  | cons p ps ih =>
      intro h
      by_cases hp : p.1 = k
      · rw [List.map_cons, if_pos hp]
        exact fcGet_cons_pos _ _ _ rfl
      · rw [List.map_cons, if_neg hp]
        rw [fcGet_cons_neg _ _ _ hp]
        apply ih
        simp only [fcHas, List.any_cons, Bool.or_eq_true] at h
        rcases h with h | h
        · exact absurd (of_decide_eq_true h) hp
        · exact h

theorem fcGet_map_update_ne (k n : Option String) (v : FreeCadObject) (h : n ≠ k) :
    ∀ m : FcMap,
      fcGet (m.map (fun p => if p.1 = k then (k, v) else p)) n = fcGet m n := by
  intro m
  induction m with
  | nil => rfl
  | cons p ps ih =>
      by_cases hp : p.1 = k
      · rw [List.map_cons, if_pos hp]
        have hkn : ¬((k, v) : Option String × FreeCadObject).1 = n :=
          fun hx => h (by simpa using hx.symm)
        rw [fcGet_cons_neg _ _ _ hkn]
        have hpn : ¬p.1 = n := by rw [hp]; exact fun hx => h hx.symm
        rw [fcGet_cons_neg _ _ _ hpn]
        exact ih
      · rw [List.map_cons, if_neg hp]
        by_cases hpn : p.1 = n
        · rw [fcGet_cons_pos _ _ _ hpn, fcGet_cons_pos _ _ _ hpn]
        · rw [fcGet_cons_neg _ _ _ hpn, fcGet_cons_neg _ _ _ hpn, ih]

theorem find?_eq_none_of_not_has (m : FcMap) (k : Option String)
    (h : ¬fcHas m k = true) : m.find? (fun p => decide (p.1 = k)) = none := by
  cases hf : m.find? (fun p => decide (p.1 = k)) with
  | none => rfl
  | some p =>
      exfalso
      apply h
      rw [fcHas_eq_isSome]
      unfold fcGet
      rw [hf]
      rfl

theorem fcGet_set_self (m : FcMap) (k : Option String) (v : FreeCadObject) :
    fcGet (fcSet m k v) k = some v := by
  unfold fcSet
  by_cases h : fcHas m k = true
  · rw [if_pos h]
    exact fcGet_map_update_self k v m h
  · rw [if_neg h]
    unfold fcGet
    rw [List.find?_append, find?_eq_none_of_not_has m k h]
    rw [Option.none_or, List.find?_cons_of_pos _ (by simp)]
    rfl

theorem fcGet_set_ne (m : FcMap) (k n : Option String) (v : FreeCadObject) (h : n ≠ k) :
    fcGet (fcSet m k v) n = fcGet m n := by
  unfold fcSet
  by_cases hh : fcHas m k = true
  · rw [if_pos hh]
    exact fcGet_map_update_ne k n v h m
  · rw [if_neg hh]
    unfold fcGet
    rw [List.find?_append]
    have h1 : List.find? (fun p => decide (p.1 = n)) [(k, v)] = none := by
      rw [List.find?_cons_of_neg _ (by simpa using fun hx : k = n => h hx.symm)]
      rfl
    rw [h1]
    cases m.find? (fun p => decide (p.1 = n)) <;> rfl

theorem fcSet_isSome_of_has (m : FcMap) (k : Option String) (v : FreeCadObject)
    (h : fcHas m k = true) (n : Option String) :
    (fcGet (fcSet m k v) n).isSome = (fcGet m n).isSome := by
  by_cases hn : n = k
  · subst hn
    rw [fcGet_set_self]
    rw [fcHas_eq_isSome] at h
    rw [h]
    rfl
  · rw [fcGet_set_ne m k n v hn]

theorem applyProperty_ok (arch : FcArchive) (hnull : arch.hasFile "null" = false)
    (o : FreeCadObject) (pe : XmlElement) :
    ∃ o2, applyProperty arch o pe = Except.ok o2 := by
  unfold applyProperty
  dsimp only
  repeat' split
  all_goals first
    | exact ⟨_, rfl⟩
    | (exfalso; simp_all [FcArchive.hasFileOpt])

theorem applyProperties_ok (arch : FcArchive) (hnull : arch.hasFile "null" = false) :
    ∀ (pes : List XmlElement) (o : FreeCadObject),
      ∃ o2, applyProperties arch o pes = Except.ok o2 := by
  intro pes
  induction pes with
  | nil => intro o; exact ⟨o, rfl⟩
  | cons pe pes ih =>
      intro o
      obtain ⟨o1, h1⟩ := applyProperty_ok arch hnull o pe
      obtain ⟨o2, h2⟩ := ih o1
      exact ⟨o2, by simp only [applyProperties, h1, except_bind_ok, h2]⟩

theorem applyLinkStep_isSome (m : FcMap) (le : XmlElement) (n : Option String) :
    (fcGet (applyLinkStep m le) n).isSome = (fcGet m n).isSome := by
  unfold applyLinkStep
  by_cases hh : fcHas m (getAttribute le "value") = true
  · rw [if_pos hh]
    cases hg : fcGet m (getAttribute le "value") with
    | none => rfl
    | some lo => exact fcSet_isSome_of_has m _ _ hh n
  · rw [if_neg hh]

theorem applyLinks_isSome (linkEls : List XmlElement) :
    ∀ (m : FcMap) (n : Option String),
      (fcGet (applyLinks m linkEls) n).isSome = (fcGet m n).isSome := by
  induction linkEls with
  | nil => intro m n; rfl
  | cons le les ih =>
      intro m n
      simp only [applyLinks, List.foldl_cons] at *
      rw [ih (applyLinkStep m le) n, applyLinkStep_isSome]

theorem fcSet_isSome (m : FcMap) (k : Option String) (v : FreeCadObject) (n : Option String) :
    (fcGet (fcSet m k v) n).isSome = ((fcGet m n).isSome || decide (n = k)) := by
  by_cases hn : n = k
  · subst hn
    rw [fcGet_set_self]
    simp
  · rw [fcGet_set_ne _ _ _ _ hn]
    simp [hn]

theorem guiPass_keys :
    ∀ (els : List XmlElement) (m : FcMap) (n : Option String),
      (fcGet (guiPass els m) n).isSome = (fcGet m n).isSome := by
  intro els
  induction els with
  | nil => intro m n; rfl
  | cons vp rest ih =>
      intro m n
      by_cases hh : fcHas m (getAttribute vp "name") = true
      · obtain ⟨o, ho⟩ := Option.isSome_iff_exists.mp ((fcHas_eq_isSome _ _) ▸ hh)
        simp only [guiPass, hh, if_pos, ho]
        rw [ih, fcSet_isSome_of_has _ _ _ hh]
      · simp only [guiPass, hh]
        rw [if_neg (by simp [hh])]
        exact ih m n

theorem objectDataPass_keys (arch : FcArchive) (hnull : arch.hasFile "null" = false) :
    ∀ (els : List XmlElement) (m : FcMap),
      ∃ m2, objectDataPass arch els m = Except.ok m2 ∧
        ∀ n, (fcGet m2 n).isSome = (fcGet m n).isSome := by
  intro els
  induction els with
  | nil => intro m; exact ⟨m, rfl, fun n => rfl⟩
  | cons oe rest ih =>
      intro m
      by_cases hh : fcHas m (getAttribute oe "name") = true
      · obtain ⟨o, ho⟩ := Option.isSome_iff_exists.mp ((fcHas_eq_isSome _ _) ▸ hh)
        obtain ⟨o1, h1⟩ := applyProperties_ok arch hnull (getElementsByTagName oe "Property") o
        obtain ⟨m2, h2, hk⟩ :=
          ih (applyLinks (fcSet m (getAttribute oe "name") o1) (getElementsByTagName oe "Link"))
        refine ⟨m2, ?_, ?_⟩
        · simp only [objectDataPass, hh, if_pos, ho, h1, except_bind_ok, h2]
        · intro n
          rw [hk n, applyLinks_isSome, fcSet_isSome_of_has _ _ _ hh]
      · obtain ⟨m2, h2, hk⟩ := ih m
        refine ⟨m2, ?_, hk⟩
        simp only [objectDataPass, hh]
        rw [if_neg (by simp [hh])]
        exact h2

theorem objectsPass_spec :
    ∀ (els : List XmlElement),
      (∀ oe ∈ els, (getAttribute oe "type").isSome = true) →
      ∀ (names : List (Option String)) (m : FcMap),
        ∃ m2, objectsPass els names m = Except.ok (names ++ declaredNamesOf els, m2) ∧
          ∀ n, (fcGet m2 n).isSome =
            ((fcGet m n).isSome || decide (n ∈ declaredNamesOf els)) := by
  intro els
  induction els with
  | nil =>
      intro _ names m
      exact ⟨m, by simp [objectsPass, declaredNamesOf], fun n => by simp [declaredNamesOf]⟩
  | cons oe rest ih =>
      intro hty names m
      obtain ⟨t, ht⟩ := Option.isSome_iff_exists.mp (hty oe (List.mem_cons_self oe rest))
      have hrest := fun x hx => hty x (List.mem_cons_of_mem oe hx)
      have hdecl : declaredNamesOf (oe :: rest) =
          (if supportedTypeB t then [getAttribute oe "name"] else []) ++ declaredNamesOf rest := by
        by_cases hs : supportedTypeB t = true
        · simp [declaredNamesOf, ht, hs]
        · simp only [Bool.not_eq_true] at hs
          simp [declaredNamesOf, ht, hs]
      by_cases hs : supportedTypeB t = true
      · obtain ⟨m2, h2, hk⟩ := ih hrest (names ++ [getAttribute oe "name"])
          (fcSet m (getAttribute oe "name")
            (FreeCadObject.make (getAttribute oe "name") (some t)))
        refine ⟨m2, ?_, ?_⟩
        · simp only [objectsPass, ht, isSupportedType_some, except_bind_ok, hs, if_pos]
          rw [h2, hdecl, if_pos hs]
          simp
        · intro n
          rw [hk n, fcSet_isSome, hdecl, if_pos hs]
          by_cases h1 : n = getAttribute oe "name" <;>
            by_cases hq : n ∈ declaredNamesOf rest <;> simp [h1, hq]
      · obtain ⟨m2, h2, hk⟩ := ih hrest names m
        have hs2 : supportedTypeB t = false := by simpa using hs
        refine ⟨m2, ?_, ?_⟩
        · simp only [objectsPass, ht, isSupportedType_some, except_bind_ok, hs2]
          rw [if_neg (by simp), h2, hdecl, if_neg (by simp [hs2])]
          simp
        · intro n
          rw [hk n, hdecl, if_neg (by simp [hs2])]
          simp

theorem loadGui_preserves (arch : FcArchive) (d : FreeCadDocument) :
    (LoadGuiDocumentXml arch d).objectNames = d.objectNames ∧
    ∀ n, (fcGet (LoadGuiDocumentXml arch d).objectData n).isSome =
      (fcGet d.objectData n).isSome := by
  unfold LoadGuiDocumentXml
  cases arch.getXML "GuiDocument.xml" with
  | none => exact ⟨rfl, fun n => rfl⟩
  | some g => exact ⟨rfl, fun n => guiPass_keys _ _ n⟩

/-- C10: after document parsing (object list, object data, links, optional
viewer overrides), the object map has an entry exactly for the names declared
in the object list with a supported type, in declaration order; ObjectData
sections, Link records and ViewProvider entries never create an entry. -/
theorem document_object_map (arch : FcArchive) (docXml : XmlElement)
    (hdoc : arch.getXML "Document.xml" = some docXml)
    (hnull : arch.hasFile "null" = false)
    (hty : ∀ oe ∈ sectionObjects docXml "Objects", (getAttribute oe "type").isSome = true) :
    ∃ d, FreeCadDocumentInit arch = Except.ok (DocumentInitResult.Success d) ∧
      d.objectNames = declaredSupportedNames docXml ∧
      ∀ n, ((fcGet d.objectData n).isSome = true ↔ n ∈ declaredSupportedNames docXml) := by
  obtain ⟨m2, h2, hk⟩ := objectsPass_spec (sectionObjects docXml "Objects") hty [] []
  obtain ⟨m3, h3, hk3⟩ := objectDataPass_keys arch hnull (sectionObjects docXml "ObjectData") m2
  have hload : LoadDocumentXml arch =
      Except.ok (some ⟨[] ++ declaredNamesOf (sectionObjects docXml "Objects"), m3⟩) := by
    unfold LoadDocumentXml
    rw [hdoc]
    dsimp only
    rw [h2, except_bind_ok]
    dsimp only
    rw [h3, except_bind_ok]
  obtain ⟨hgNames, hgKeys⟩ :=
    loadGui_preserves arch ⟨[] ++ declaredNamesOf (sectionObjects docXml "Objects"), m3⟩
  refine ⟨LoadGuiDocumentXml arch ⟨[] ++ declaredNamesOf (sectionObjects docXml "Objects"), m3⟩,
    ?_, ?_, ?_⟩
  · unfold FreeCadDocumentInit
    rw [hload, except_bind_ok]
  · rw [hgNames]
    simp [declaredSupportedNames]
  · intro n
    rw [hgKeys n]
    show (fcGet m3 n).isSome = true ↔ _
    rw [hk3 n, hk n]
    simp [declaredSupportedNames, fcGet]

def xObjDecl (n t : String) : XmlElement := ⟨"Object", [("name", n), ("type", t)], []⟩

def w10DocXml : XmlElement :=
  ⟨"Document", [], [
    ⟨"Objects", [], [xObjDecl "Box" "Part::Box", xObjDecl "Sketch" "Sketcher::SketchObject",
                     xObjDecl "Flat" "Part::Part2DObjectPython"]⟩,
    ⟨"ObjectData", [], [
      ⟨"Object", [("name", "Box")], [
        ⟨"Property", [("name", "Visibility")], [⟨"Bool", [("value", "true")], []⟩]⟩,
        ⟨"Link", [("value", "Ghost")], []⟩]⟩,
      ⟨"Object", [("name", "Ghost")], [
        ⟨"Property", [("name", "Label")], [⟨"String", [("value", "G")], []⟩]⟩]⟩]⟩]⟩

def w10Arch : FcArchive := ⟨[("Document.xml", ⟨[1], w10DocXml⟩)]⟩

/-- C10, witness: a document declaring one supported object, one
unsupported-family object and one deny-listed 2D object, whose ObjectData
names both the retained object and an undeclared one. -/
theorem document_object_map_witness :
    (w10Arch.getXML "Document.xml" = some w10DocXml) ∧
    (w10Arch.hasFile "null" = false) ∧
    ∃ d, FreeCadDocumentInit w10Arch = Except.ok (DocumentInitResult.Success d) ∧
      d.objectNames = declaredSupportedNames w10DocXml ∧
      ∀ n, ((fcGet d.objectData n).isSome = true ↔ n ∈ declaredSupportedNames w10DocXml) :=
  ⟨rfl, by decide, document_object_map w10Arch w10DocXml rfl (by decide) (by decide)⟩

/-! ## Claim C2: BIM round trip for material-mode documents -/

/-- The RGBA channel tuple read for triangle `t` from a packed colors array. -/
def key4 (cs : List JNum) (t : Nat) : ColorKey :=
  (jsGet cs (4*t), jsGet cs (4*t+1), jsGet cs (4*t+2), jsGet cs (4*t+3))

/-- The color→material map invariant: every mapped index stores the
deduplicated material of its key. -/
def MatInv (st : BimImportState) : Prop :=
  ∀ p ∈ st.colorToMat, st.model.materials.get? p.2 = some (matOf p.1)

theorem GetMaterialIndex_spec (k : ColorKey) (st : BimImportState) (h : MatInv st) :
    MatInv (GetMaterialIndex k st).2 ∧
    st.model.materials <+: (GetMaterialIndex k st).2.model.materials ∧
    (GetMaterialIndex k st).2.model.materials.get? (GetMaterialIndex k st).1 = some (matOf k) ∧
    (GetMaterialIndex k st).2.model.meshes = st.model.meshes ∧
    (GetMaterialIndex k st).2.model.rootNodes = st.model.rootNodes := by
  cases hf : st.colorToMat.find? (fun p => decide (p.1 = k)) with
  | some p =>
      have hkey : p.1 = k := by
        have hps := List.find?_some hf
        simpa using hps
      have hmem := List.mem_of_find?_eq_some hf
      simp only [GetMaterialIndex, hf, Option.map_some']
      refine ⟨h, List.prefix_refl _, ?_, by trivial, by trivial⟩
      rw [← hkey]
      exact h p hmem
  | none =>
      simp only [GetMaterialIndex, hf, Option.map_none']
      refine ⟨?_, ⟨[matOf k], rfl⟩, List.get?_concat_length _ _, by trivial, by trivial⟩
      intro p hp
      rcases List.mem_append.mp hp with hold | hnew
      · exact get?_of_prefix ⟨[matOf k], rfl⟩ (h p hold)
      · have hpk : p = (k, st.model.materials.length) := by simpa using hnew
        subst hpk
        exact List.get?_concat_length _ _

/-- In material mode without an element color, the 1.1.0 material callback is
exactly the converter lookup of the triangle's four packed channels. -/
theorem meshColorCallback_eq (cs : List JNum) (t : Nat) (st : BimImportState) :
    meshColorCallback none (some cs) t st = GetMaterialIndex (key4 cs t) st := by
  simp [meshColorCallback, truthyIdx, key4]

theorem buildTrisMat_spec (indices : List JNum)
    (getMat : Nat → BimImportState → Nat × BimImportState) (ckey : Nat → ColorKey)
    (hg : ∀ t st, MatInv st →
      MatInv (getMat t st).2 ∧
      st.model.materials <+: (getMat t st).2.model.materials ∧
      (getMat t st).2.model.materials.get? (getMat t st).1 = some (matOf (ckey t)) ∧
      (getMat t st).2.model.meshes = st.model.meshes ∧
      (getMat t st).2.model.rootNodes = st.model.rootNodes) :
    ∀ (ts : List Nat) (st : BimImportState), MatInv st →
      MatInv (buildTrisMat indices getMat ts st).2 ∧
      st.model.materials <+: (buildTrisMat indices getMat ts st).2.model.materials ∧
      (buildTrisMat indices getMat ts st).2.model.meshes = st.model.meshes ∧
      (buildTrisMat indices getMat ts st).2.model.rootNodes = st.model.rootNodes ∧
      (∀ j tv, ts.get? j = some tv →
        ∃ mi, (buildTrisMat indices getMat ts st).1.get? j =
            some ⟨jsGet indices (3*tv), jsGet indices (3*tv+1), jsGet indices (3*tv+2),
                  some mi, none⟩ ∧
          (buildTrisMat indices getMat ts st).2.model.materials.get? mi =
            some (matOf (ckey tv))) := by
  intro ts
  induction ts with
  | nil =>
      intro st hInv
      exact ⟨hInv, List.prefix_refl _, rfl, rfl, fun j tv hj => by simp at hj⟩
  | cons t ts ih =>
      intro st hInv
      obtain ⟨hInv1, hpre1, hidx1, hmesh1, hroot1⟩ := hg t st hInv
      obtain ⟨hInv2, hpre2, hmesh2, hroot2, htris⟩ := ih (getMat t st).2 hInv1
      simp only [buildTrisMat]
      refine ⟨hInv2, hpre1.trans hpre2, hmesh2.trans hmesh1, hroot2.trans hroot1, ?_⟩
      intro j tv hj
      cases j with
      | zero =>
          simp only [List.get?_cons_zero] at hj
          cases hj
          exact ⟨(getMat t st).1, rfl, get?_of_prefix hpre2 hidx1⟩
      | succ j2 =>
          simp only [List.get?_cons_succ] at hj
          obtain ⟨mi, hmi, hmat⟩ := htris j2 tv hj
          exact ⟨mi, hmi, hmat⟩

theorem set_concat_length {α : Type} (l : List α) (x y : α) :
    (l ++ [x]).set l.length y = l ++ [y] := by
  induction l with
  | nil => rfl
  | cons a as ih => simp [List.set, ih]

/-- The per-element hypotheses under which the whole document decodes in
material mode. -/
def MaterialModeElements (meshes : List BimMesh) (els : List BimElement) : Prop :=
  ∀ el ∈ els, el.face_colors = none ∧ el.color = none ∧
    ∃ bm cs, meshMapGet meshes el.mesh_id = some bm ∧ bm.colors = some cs ∧
      cs.length < 4 * bm.indices.length

theorem ImportElement_material (meshes : List BimMesh) (el : BimElement) (bm : BimMesh)
    (cs : List JNum) (st : BimImportState)
    (hm : meshMapGet meshes el.mesh_id = some bm)
    (hfc : el.face_colors = none) (hcol : el.color = none)
    (hcs : bm.colors = some cs)
    (hmode : cs.length < 4 * bm.indices.length)
    (hInv : MatInv st) :
    ∃ mesh st2, ImportElement meshes el st = Except.ok (some st.model.meshes.length, st2) ∧
      MatInv st2 ∧
      st.model.materials <+: st2.model.materials ∧
      st2.model.meshes = st.model.meshes ++ [mesh] ∧
      mesh.vertices.length = strideCount bm.coordinates.length ∧
      mesh.triangles.length = strideCount bm.indices.length ∧
      (∀ t, t < strideCount bm.indices.length →
        ∃ mi, mesh.triangles.get? t =
            some ⟨jsGet bm.indices (3*t), jsGet bm.indices (3*t+1), jsGet bm.indices (3*t+2),
                  some mi, none⟩ ∧
          st2.model.materials.get? mi = some (matOf (key4 cs t))) := by
  have hcond : ¬ vertexColorModeCond cs.length bm.indices.length := by
    rw [vertexColorModeCond_iff]
    omega
  have hg := fun t st2 hI =>
    (meshColorCallback_eq cs t st2) ▸ GetMaterialIndex_spec (key4 cs t) st2 hI
  have hcb : ∀ t st2, MatInv st2 →
      MatInv ((meshColorCallback none (some cs)) t st2).2 ∧
      st2.model.materials <+: ((meshColorCallback none (some cs)) t st2).2.model.materials ∧
      ((meshColorCallback none (some cs)) t st2).2.model.materials.get?
          ((meshColorCallback none (some cs)) t st2).1 = some (matOf (key4 cs t)) ∧
      ((meshColorCallback none (some cs)) t st2).2.model.meshes = st2.model.meshes ∧
      ((meshColorCallback none (some cs)) t st2).2.model.rootNodes = st2.model.rootNodes := by
    intro t st2 hI
    rw [meshColorCallback_eq]
    exact GetMaterialIndex_spec (key4 cs t) st2 hI
  clear hg
  obtain ⟨hInv2, hpre2, hmesh2, hroot2, htris⟩ :=
    buildTrisMat_spec bm.indices (meshColorCallback none (some cs)) (key4 cs) hcb
      (List.range (strideCount bm.indices.length)) st hInv
  set bt := buildTrisMat bm.indices (meshColorCallback none (some cs))
      (List.range (strideCount bm.indices.length)) st with hbt
  refine ⟨⟨none, buildVertices bm.coordinates, bt.1, []⟩,
          ⟨⟨bt.2.model.meshes ++ [⟨none, buildVertices bm.coordinates, bt.1, []⟩],
            bt.2.model.materials,
            bt.2.model.rootNodes ++ [⟨bt.2.model.meshes.length⟩]⟩,
           bt.2.colorToMat⟩, ?_, ?_, ?_, ?_, ?_, ?_, ?_⟩
  · simp only [ImportElement, hcol, hm, hfc, hcs, except_bind_ok]
    rw [if_neg hcond]
    simp only [except_bind_ok, ImportMeshMaterial, ← hbt]
    rw [hmesh2]
  · exact hInv2
  · exact hpre2
  · show bt.2.model.meshes ++ _ = _
    rw [hmesh2]
  · simp [buildVertices]
  · simpa using buildTrisMat_length bm.indices (meshColorCallback none (some cs))
      (List.range (strideCount bm.indices.length)) st
  · intro t ht
    obtain ⟨mi, hmi, hmat⟩ := htris t t (by rw [List.get?_range ht])
    exact ⟨mi, hmi, hmat⟩

theorem setMeshName_concat (st : BimImportState) (l : List UMesh) (mesh : UMesh)
    (name : Option String) (h : st.model.meshes = l ++ [mesh]) :
    setMeshName st l.length name =
      { st with model := { st.model with meshes := l ++ [{ mesh with name := name }] } } := by
  have hg : st.model.meshes.get? l.length = some mesh := by
    rw [h]
    exact List.get?_concat_length _ _
  simp only [setMeshName, hg]
  rw [h, set_concat_length]

theorem importElements_spec (meshes : List BimMesh) :
    ∀ (els : List BimElement) (st : BimImportState),
      MaterialModeElements meshes els → MatInv st →
      ∃ st2, importElements meshes els st = Except.ok st2 ∧
        MatInv st2 ∧
        st.model.materials <+: st2.model.materials ∧
        st2.model.meshes.length = st.model.meshes.length + els.length ∧
        (∀ j, j < st.model.meshes.length → st2.model.meshes.get? j = st.model.meshes.get? j) ∧
        (∀ j el bm cs, els.get? j = some el →
          meshMapGet meshes el.mesh_id = some bm → bm.colors = some cs →
          ∃ mesh, st2.model.meshes.get? (st.model.meshes.length + j) = some mesh ∧
            mesh.vertices.length = strideCount bm.coordinates.length ∧
            mesh.triangles.length = strideCount bm.indices.length ∧
            ∀ t, t < strideCount bm.indices.length →
              ∃ mi, mesh.triangles.get? t =
                  some ⟨jsGet bm.indices (3*t), jsGet bm.indices (3*t+1),
                        jsGet bm.indices (3*t+2), some mi, none⟩ ∧
                st2.model.materials.get? mi = some (matOf (key4 cs t))) := by
  intro els
  induction els with
  | nil =>
      intro st _ hInv
      exact ⟨st, rfl, hInv, List.prefix_refl _, by simp, fun j hj => rfl,
        fun j el bm cs hj => by simp at hj⟩
  | cons el rest ih =>
      intro st hMM hInv
      obtain ⟨hfc, hcol, bm, cs, hm, hcs, hlen⟩ := hMM el (List.mem_cons_self el rest)
      have hMMrest : MaterialModeElements meshes rest :=
        fun x hx => hMM x (List.mem_cons_of_mem el hx)
      obtain ⟨mesh, st2, hIE, hInv2, hpre2, hmesh2, hvlen, htlen, htris⟩ :=
        ImportElement_material meshes el bm cs st hm hfc hcol hcs hlen hInv
      have hset := setMeshName_concat st2 st.model.meshes mesh el.type hmesh2
      have hInv3 : MatInv { st2 with model :=
          { st2.model with meshes := st.model.meshes ++ [{ mesh with name := el.type }] } } :=
        hInv2
      obtain ⟨st4, hRest, hInv4, hpre4, hlen4, hstab4, hfacts4⟩ :=
        ih { st2 with model :=
          { st2.model with meshes := st.model.meshes ++ [{ mesh with name := el.type }] } }
          hMMrest hInv3
      refine ⟨st4, ?_, hInv4, ?_, ?_, ?_, ?_⟩
      · simp only [importElements, hIE, except_bind_ok]
        rw [hset]
        exact hRest
      · exact hpre2.trans hpre4
      · rw [hlen4]
        simp only [List.length_append, List.length_cons, List.length_nil]
        omega
      · intro j hj
        rw [hstab4 j (by simp only [List.length_append, List.length_cons, List.length_nil]; omega)]
        show (st.model.meshes ++ [{ mesh with name := el.type }]).get? j = st.model.meshes.get? j
        exact List.get?_append hj
      · intro j el2 bm2 cs2 hel hm2 hcs2
        cases j with
        | zero =>
            simp only [List.get?_cons_zero] at hel
            cases hel
            rw [hm] at hm2
            cases hm2
            rw [hcs] at hcs2
            cases hcs2
            refine ⟨{ mesh with name := el.type }, ?_, hvlen, htlen, ?_⟩
            · rw [Nat.add_zero]
              rw [hstab4 st.model.meshes.length
                  (by simp only [List.length_append, List.length_cons, List.length_nil]; omega)]
              show (st.model.meshes ++ [{ mesh with name := el.type }]).get?
                  st.model.meshes.length = _
              exact List.get?_concat_length _ _
            · intro t ht
              obtain ⟨mi, hmi, hmat⟩ := htris t ht
              exact ⟨mi, hmi, get?_of_prefix hpre4 hmat⟩
        | succ j2 =>
            simp only [List.get?_cons_succ] at hel
            obtain ⟨mesh2, hpos, hv, ht2, htr⟩ := hfacts4 j2 el2 bm2 cs2 hel hm2 hcs2
            refine ⟨mesh2, ?_, hv, ht2, htr⟩
            rw [show st.model.meshes.length + (j2+1) =
                (st.model.meshes ++ [{ mesh with name := el.type }]).length + j2 from by
              simp only [List.length_append, List.length_cons, List.length_nil]; omega]
            exact hpos

theorem exportTriangleColor_matOf (materials : List BimMaterial) (tr : UTriangle)
    (mi : Nat) (k : ColorKey) (hmi : tr.mat = some mi)
    (hmat : materials.get? mi = some (matOf k)) :
    exportTriangleColor materials tr = Except.ok [k.1, k.2.1, k.2.2.1, k.2.2.2] := by
  have hb : tr.mat.bind (fun i => materials.get? i) = some (matOf k) := by
    rw [hmi]
    simpa using hmat
  simp only [exportTriangleColor, hb]
  show Except.ok [k.1, k.2.1, k.2.2.1,
    ColorComponentFromFloat (ColorComponentToFloat k.2.2.2)] = _
  rw [fromFloat_toFloat]

theorem get?_shift4 {α : Type} (a b c d : α) (l : List α) (i : Nat) :
    (a :: b :: c :: d :: l).get? (i + 4) = l.get? i := rfl

theorem exportColors_spec (materials : List BimMaterial) :
    ∀ (tris : List UTriangle) (ckey : Nat → ColorKey),
      (∀ t tr, tris.get? t = some tr →
        ∃ mi, tr.mat = some mi ∧ materials.get? mi = some (matOf (ckey t))) →
      ∃ cls, exportColors materials tris = Except.ok cls ∧
        cls.length = 4 * tris.length ∧
        (∀ t, t < tris.length → key4 cls t = ckey t) := by
  intro tris
  induction tris with
  | nil =>
      intro ckey _
      exact ⟨[], rfl, rfl, fun t ht => absurd ht (by simp)⟩
  | cons tr rest ih =>
      intro ckey h
      obtain ⟨mi, hmi, hmat⟩ := h 0 tr rfl
      obtain ⟨cls2, hc2, hlen2, hkey2⟩ := ih (fun t => ckey (t+1))
        (fun t tr2 ht => h (t+1) tr2 (by simpa using ht))
      refine ⟨[(ckey 0).1, (ckey 0).2.1, (ckey 0).2.2.1, (ckey 0).2.2.2] ++ cls2, ?_, ?_, ?_⟩
      · simp only [exportColors, exportTriangleColor_matOf materials tr mi (ckey 0) hmi hmat,
          except_bind_ok, hc2]
      · simp only [List.length_append, List.length_cons, List.length_nil, hlen2]
        omega
      · intro t ht
        cases t with
        | zero =>
            show key4 ((ckey 0).1 :: (ckey 0).2.1 :: (ckey 0).2.2.1 :: (ckey 0).2.2.2 :: cls2)
              0 = ckey 0
            simp [key4, jsGet]
        | succ t2 =>
            have ht2 : t2 < rest.length := by
              simp only [List.length_cons] at ht
              omega
            rw [← hkey2 t2 ht2]
            show key4 ((ckey 0).1 :: (ckey 0).2.1 :: (ckey 0).2.2.1 :: (ckey 0).2.2.2 :: cls2)
              (t2+1) = key4 cls2 t2
            unfold key4
            rw [show 4*(t2+1) = 4*t2+4 from by ring]
            rw [show 4*t2+4+1 = 4*t2+1+4 from by ring,
                show 4*t2+4+2 = 4*t2+2+4 from by ring,
                show 4*t2+4+3 = 4*t2+3+4 from by ring]
            rfl

theorem flat3_length {α β : Type} (f1 f2 f3 : α → β) :
    ∀ l : List α, ((l.map (fun x => [f1 x, f2 x, f3 x])).flatten).length = 3 * l.length := by
  intro l
  induction l with
  | nil => rfl
  | cons a as ih =>
      simp only [List.map_cons, List.flatten_cons, List.length_append, ih, List.length_cons,
        List.length_nil]
      omega

theorem exportMeshes_spec (materials : List BimMaterial) (guids : Nat → String) :
    ∀ (umeshes : List UMesh) (startId : Nat) (ck : Nat → Nat → ColorKey),
      (∀ j mesh, umeshes.get? j = some mesh →
        ∀ t tr, mesh.triangles.get? t = some tr →
          ∃ mi, tr.mat = some mi ∧ materials.get? mi = some (matOf (ck j t))) →
      ∃ bms els, exportMeshes materials guids umeshes startId = Except.ok (bms, els) ∧
        bms.length = umeshes.length ∧ els.length = umeshes.length ∧
        (∀ j mesh, umeshes.get? j = some mesh →
          ∃ bm2 cls, bms.get? j = some bm2 ∧
            bm2.mesh_id = ((startId + j : Nat) : Int) ∧
            bm2.coordinates.length = 3 * mesh.vertices.length ∧
            bm2.indices.length = 3 * mesh.triangles.length ∧
            bm2.colors = some cls ∧ cls.length = 4 * mesh.triangles.length ∧
            (∀ t, t < mesh.triangles.length → key4 cls t = ck j t)) ∧
        (∀ j el2, els.get? j = some el2 →
          el2.mesh_id = ((startId + j : Nat) : Int) ∧ el2.face_colors = none ∧
          el2.color = none) := by
  intro umeshes
  induction umeshes with
  | nil =>
      intro startId ck _
      exact ⟨[], [], rfl, rfl, rfl, fun j mesh hj => by simp at hj, fun j el hj => by simp at hj⟩
  | cons mesh rest ih =>
      intro startId ck h
      obtain ⟨cls, hcls, hclen, hckey⟩ := exportColors_spec materials mesh.triangles (ck 0)
        (fun t tr ht => h 0 mesh rfl t tr ht)
      obtain ⟨bms2, els2, hexp2, hblen2, helen2, hbfacts2, hefacts2⟩ :=
        ih (startId + 1) (fun j => ck (j+1))
          (fun j mesh2 hj => h (j+1) mesh2 (by simpa using hj))
      refine ⟨({ mesh_id := (startId : Int),
                 coordinates := (mesh.vertices.map (fun v => [v.1, v.2.1, v.2.2])).flatten,
                 indices := (mesh.triangles.map (fun t => [t.v0, t.v1, t.v2])).flatten,
                 colors := some cls } : BimMesh) :: bms2,
              ({ mesh_id := (startId : Int), type := some "Other", color := none,
                 face_colors := none, vector := some ⟨0, 0, 0⟩,
                 rotation := some ⟨0, 0, 0, 1⟩, guid := some (guids startId) } : BimElement)
                :: els2, ?_, ?_, ?_, ?_, ?_⟩
      · simp only [exportMeshes, hcls, except_bind_ok, hexp2]
      · simp [hblen2]
      · simp [helen2]
      · intro j mesh2 hj
        cases j with
        | zero =>
            simp only [List.get?_cons_zero] at hj
            cases hj
            refine ⟨_, cls, rfl, by simp, ?_, ?_, rfl, hclen, hckey⟩
            · exact flat3_length _ _ _ mesh.vertices
            · exact flat3_length _ _ _ mesh.triangles
        | succ j2 =>
            simp only [List.get?_cons_succ] at hj
            obtain ⟨bm2, cls2, hpos, hid, hco, hin, hcol2, hclen2, hck2⟩ :=
              hbfacts2 j2 mesh2 hj
            refine ⟨bm2, cls2, hpos, ?_, hco, hin, hcol2, hclen2, hck2⟩
            rw [hid]
            congr 1
            omega
      · intro j el2 hj
        cases j with
        | zero =>
            simp only [List.get?_cons_zero] at hj
            cases hj
            exact ⟨by simp, rfl, rfl⟩
        | succ j2 =>
            simp only [List.get?_cons_succ] at hj
            obtain ⟨hid, hfc, hcol2⟩ := hefacts2 j2 el2 hj
            refine ⟨?_, hfc, hcol2⟩
            rw [hid]
            congr 1
            omega

theorem find?_reverse_unique {α : Type} (p : α → Bool) (l : List α) (x : α)
    (hmem : x ∈ l) (hpx : p x = true)
    (huniq : ∀ y ∈ l, p y = true → y = x) :
    l.reverse.find? p = some x := by
  cases hf : l.reverse.find? p with
  | none =>
      rw [List.find?_eq_none] at hf
      exact absurd hpx (hf x (List.mem_reverse.mpr hmem))
  | some y =>
      have hy := List.mem_of_find?_eq_some hf
      have hpy := List.find?_some hf
      rw [huniq y (List.mem_reverse.mp hy) hpy]

theorem meshMapGet_positional (ms : List BimMesh)
    (hids : ∀ i bm, ms.get? i = some bm → bm.mesh_id = (i : Int)) :
    ∀ j bm, ms.get? j = some bm → meshMapGet ms bm.mesh_id = some bm := by
  intro j bm hj
  unfold meshMapGet
  apply find?_reverse_unique
  · exact List.get?_mem hj
  · simp
  · intro y hy hpy
    obtain ⟨i, hi⟩ := List.get?_of_mem hy
    have hyid : y.mesh_id = bm.mesh_id := by simpa using hpy
    have h1 := hids i y hi
    have h2 := hids j bm hj
    have hcast : (i : Int) = (j : Int) := by rw [← h1, ← h2, hyid]
    have hij : i = j := by exact_mod_cast hcast
    rw [hij, hj] at hi
    exact (Option.some.inj hi).symm

theorem strideCount_3mul (T : Nat) : strideCount (3*T) = T := by
  unfold strideCount
  omega

theorem strideCount_pos (L : Nat) (h : 1 ≤ L) : 1 ≤ strideCount L := by
  unfold strideCount
  omega

theorem triangleColorKey_eq (st : BimImportState) (i t : Nat) (mesh : UMesh)
    (tr : UTriangle) (mi : Nat) (k : ColorKey)
    (hm : st.model.meshes.get? i = some mesh)
    (ht : mesh.triangles.get? t = some tr)
    (hmi : tr.mat = some mi)
    (hmat : st.model.materials.get? mi = some (matOf k)) :
    triangleColorKey st i t = some k := by
  unfold triangleColorKey
  rw [hm, Option.some_bind, ht, Option.some_bind, hmi, Option.some_bind, hmat, Option.map_some']
  show some (k.1, k.2.1, k.2.2.1, ColorComponentFromFloat (ColorComponentToFloat k.2.2.2)) = some k
  rw [fromFloat_toFloat]

theorem triangleColorKey_none_right (st : BimImportState) (i t : Nat) (mesh : UMesh)
    (hm : st.model.meshes.get? i = some mesh)
    (ht : mesh.triangles.get? t = none) :
    triangleColorKey st i t = none := by
  unfold triangleColorKey
  rw [hm, Option.some_bind, ht]
  rfl

theorem triangleColorKey_none_left (st : BimImportState) (i t : Nat)
    (hm : st.model.meshes.get? i = none) :
    triangleColorKey st i t = none := by
  unfold triangleColorKey
  rw [hm]
  rfl

/-- The packed colors array of the mesh element `j` references; the anchor for
the per-triangle color keys of mesh `j` in both decode rounds. -/
def docColorsAt (d : BimDoc) (j : Nat) : List JNum :=
  match d.elements.get? j with
  | none => []
  | some el =>
      match meshMapGet d.meshes el.mesh_id with
      | none => []
      | some bm => bm.colors.getD []

/-- C2 (amended): decoding a material-mode BIM document, re-encoding the
model, and decoding the result again yields the same number of meshes, the
same per-mesh triangle and vertex counts, and the same per-triangle color
assignment (material indices may be renumbered by deduplication; the observed
RGBA channel tuple of every triangle is preserved). -/
theorem bim_roundtrip_material_mode (d : BimDoc) (guids : Nat → String)
    (h : MaterialModeElements d.meshes d.elements) :
    ∃ st1 st2, BimRoundTrip d guids = Except.ok (st1, st2) ∧
      st2.model.meshes.length = st1.model.meshes.length ∧
      (∀ i, (st2.model.meshes.get? i).map (fun m => m.triangles.length) =
            (st1.model.meshes.get? i).map (fun m => m.triangles.length)) ∧
      (∀ i, (st2.model.meshes.get? i).map (fun m => m.vertices.length) =
            (st1.model.meshes.get? i).map (fun m => m.vertices.length)) ∧
      (∀ i t, triangleColorKey st2 i t = triangleColorKey st1 i t) := by
  have hInv0 : MatInv (⟨⟨[], [], []⟩, []⟩ : BimImportState) := fun p hp => by simp at hp
  obtain ⟨st1, hD1, hInv1, hpre1, hlen1, hstab1, hfacts1⟩ :=
    importElements_spec d.meshes d.elements ⟨⟨[], [], []⟩, []⟩ h hInv0
  have hlen1' : st1.model.meshes.length = d.elements.length := by simpa using hlen1
  have hPer1 : ∀ j, j < d.elements.length →
      ∃ (bm : BimMesh) (cs : List JNum) (mesh1 : UMesh), docColorsAt d j = cs ∧
        st1.model.meshes.get? j = some mesh1 ∧
        mesh1.vertices.length = strideCount bm.coordinates.length ∧
        mesh1.triangles.length = strideCount bm.indices.length ∧
        1 ≤ bm.indices.length ∧ cs.length < 4 * bm.indices.length ∧
        (∀ t, t < strideCount bm.indices.length →
          ∃ mi tr, mesh1.triangles.get? t = some tr ∧ tr.mat = some mi ∧
            st1.model.materials.get? mi = some (matOf (key4 cs t))) := by
    intro j hj
    have hel : d.elements.get? j = some (d.elements.get ⟨j, hj⟩) := List.get?_eq_get hj
    obtain ⟨hfc, hcol, bm, cs, hm, hcs, hlt⟩ :=
      h (d.elements.get ⟨j, hj⟩) (List.get_mem d.elements j hj)
    obtain ⟨mesh1, hpos, hv, ht, htr⟩ := hfacts1 j _ bm cs hel hm hcs
    have hm2 : meshMapGet d.meshes (d.elements[j]).mesh_id = some bm := by
      simpa [List.get_eq_getElem] using hm
    refine ⟨bm, cs, mesh1,
      by simp [docColorsAt, ← List.get?_eq_getElem?, hel, hm2, hcs], by simpa using hpos,
      hv, ht, by omega, hlt, ?_⟩
    intro t hlt2
    obtain ⟨mi, hmi, hmat⟩ := htr t hlt2
    exact ⟨mi, _, hmi, rfl, hmat⟩
  have hexpHyp : ∀ j mesh, st1.model.meshes.get? j = some mesh →
      ∀ t tr, mesh.triangles.get? t = some tr →
        ∃ mi, tr.mat = some mi ∧
          st1.model.materials.get? mi =
            some (matOf ((fun j t => key4 (docColorsAt d j) t) j t)) := by
    intro j mesh hj t tr ht
    have hjlt : j < d.elements.length := by
      have hb := (List.get?_eq_some.mp hj).1
      rw [hlen1'] at hb
      exact hb
    obtain ⟨bm, cs, mesh1, hdc, hpos, hv, htlen, hbmpos, hlt, htr⟩ := hPer1 j hjlt
    have hmm : mesh1 = mesh := by
      rw [hj] at hpos
      exact (Option.some.inj hpos).symm
    subst hmm
    have htlt : t < strideCount bm.indices.length := by
      rw [← htlen]
      exact (List.get?_eq_some.mp ht).1
    obtain ⟨mi, tr2, hget2, hmat2, hmatIdx⟩ := htr t htlt
    have htr2 : tr2 = tr := by
      rw [ht] at hget2
      exact (Option.some.inj hget2).symm
    subst htr2
    refine ⟨mi, hmat2, ?_⟩
    show st1.model.materials.get? mi = some (matOf (key4 (docColorsAt d j) t))
    rw [hdc]
    exact hmatIdx
  obtain ⟨bms, els2, hexp, hblen, helen, hbfacts, hefacts⟩ :=
    exportMeshes_spec st1.model.materials guids st1.model.meshes 0
      (fun j t => key4 (docColorsAt d j) t) hexpHyp
  have hdoc2 : BimExportContent st1.model guids = Except.ok ⟨"1.1.0", bms, els2⟩ := by
    simp only [BimExportContent, hexp, except_bind_ok]
  have hids : ∀ i bm2, bms.get? i = some bm2 → bm2.mesh_id = (i : Int) := by
    intro i bm2 hi
    have hilt : i < st1.model.meshes.length := by
      have hb := (List.get?_eq_some.mp hi).1
      rw [hblen] at hb
      exact hb
    have hmesh : st1.model.meshes.get? i = some (st1.model.meshes.get ⟨i, hilt⟩) :=
      List.get?_eq_get hilt
    obtain ⟨bm2x, cls, hpos, hid, hrest⟩ := hbfacts i _ hmesh
    have hbb : bm2x = bm2 := by
      rw [hi] at hpos
      exact (Option.some.inj hpos).symm
    subst hbb
    rw [hid]
    simp
  have hMM2 : MaterialModeElements bms els2 := by
    intro el2 hmem
    obtain ⟨j, hj⟩ := List.get?_of_mem hmem
    obtain ⟨hid2, hfc2, hcol2⟩ := hefacts j el2 hj
    have hjlt1 : j < st1.model.meshes.length := by
      have hb := (List.get?_eq_some.mp hj).1
      rw [helen] at hb
      exact hb
    have hjlt : j < d.elements.length := by rw [← hlen1']; exact hjlt1
    have hmesh : st1.model.meshes.get? j = some (st1.model.meshes.get ⟨j, hjlt1⟩) :=
      List.get?_eq_get hjlt1
    obtain ⟨bm2, cls, hpos, hid, hco, hin, hcolors, hclen, hck⟩ := hbfacts j _ hmesh
    refine ⟨hfc2, hcol2, bm2, cls, ?_, hcolors, ?_⟩
    · rw [hid2, show ((0 + j : Nat) : Int) = bm2.mesh_id from by rw [hid]]
      exact meshMapGet_positional bms hids j bm2 hpos
    · rw [hclen, hin]
      obtain ⟨bm, cs, mesh1, hdc, hpos1, hv1, ht1, hbmpos, hlt, _⟩ := hPer1 j hjlt
      have hm1 : mesh1 = st1.model.meshes.get ⟨j, hjlt1⟩ := by
        rw [hmesh] at hpos1
        exact (Option.some.inj hpos1).symm
      have hT : 1 ≤ (st1.model.meshes.get ⟨j, hjlt1⟩).triangles.length := by
        rw [← hm1, ht1]
        exact strideCount_pos _ hbmpos
      omega
  obtain ⟨st2, hD2, hInv2, hpre2, hlen2, hstab2, hfacts2⟩ :=
    importElements_spec bms els2 ⟨⟨[], [], []⟩, []⟩ hMM2 hInv0
  have hlen2' : st2.model.meshes.length = els2.length := by simpa using hlen2
  have hRT : BimRoundTrip d guids = Except.ok (st1, st2) := by
    unfold BimRoundTrip
    rw [show BimImportContent d = importElements d.meshes d.elements ⟨⟨[],[],[]⟩,[]⟩ from rfl,
      hD1, except_bind_ok, hdoc2, except_bind_ok,
      show BimImportContent ⟨"1.1.0", bms, els2⟩ =
        importElements bms els2 ⟨⟨[],[],[]⟩,[]⟩ from rfl,
      hD2, except_bind_ok]
  have hPer : ∀ i, i < d.elements.length →
      ∃ mesh1 mesh2, st1.model.meshes.get? i = some mesh1 ∧
        st2.model.meshes.get? i = some mesh2 ∧
        mesh2.triangles.length = mesh1.triangles.length ∧
        mesh2.vertices.length = mesh1.vertices.length ∧
        (∀ t, triangleColorKey st2 i t = triangleColorKey st1 i t) := by
    intro i hi
    obtain ⟨bm, cs, mesh1, hdc, hpos1, hv1, ht1, hbmpos, hlt, htr1⟩ := hPer1 i hi
    obtain ⟨bm2, cls, hpos2, hid2, hco2, hin2, hcolors2, hclen2, hck2⟩ := hbfacts i mesh1 hpos1
    have hi2 : i < els2.length := by rw [helen, hlen1']; exact hi
    have hel2 : els2.get? i = some (els2.get ⟨i, hi2⟩) := List.get?_eq_get hi2
    obtain ⟨hid2e, hfc2e, hcol2e⟩ := hefacts i _ hel2
    have hmg2 : meshMapGet bms (els2.get ⟨i, hi2⟩).mesh_id = some bm2 := by
      rw [hid2e, show ((0 + i : Nat) : Int) = bm2.mesh_id from by rw [hid2]]
      exact meshMapGet_positional bms hids i bm2 hpos2
    obtain ⟨mesh2, hpos2b, hv2, ht2, htr2⟩ := hfacts2 i _ bm2 cls hel2 hmg2 hcolors2
    have hpos2b' : st2.model.meshes.get? i = some mesh2 := by simpa using hpos2b
    have htcount : mesh2.triangles.length = mesh1.triangles.length := by
      rw [ht2, hin2, strideCount_3mul, ht1]
    have hvcount : mesh2.vertices.length = mesh1.vertices.length := by
      rw [hv2, hco2, strideCount_3mul, hv1]
    refine ⟨mesh1, mesh2, hpos1, hpos2b', htcount, hvcount, ?_⟩
    intro t
    by_cases htlt : t < mesh1.triangles.length
    · have htlt1 : t < strideCount bm.indices.length := by rw [← ht1]; exact htlt
      obtain ⟨mi, trx, hgx, hmx, hmatx⟩ := htr1 t htlt1
      have hK1 : triangleColorKey st1 i t = some (key4 cs t) :=
        triangleColorKey_eq st1 i t mesh1 trx mi _ hpos1 hgx hmx hmatx
      have htlt2 : t < strideCount bm2.indices.length := by
        rw [hin2, strideCount_3mul, ht1]
        exact htlt1
      obtain ⟨mi2, hg2, hmat2⟩ := htr2 t htlt2
      have hK2 : triangleColorKey st2 i t = some (key4 cls t) :=
        triangleColorKey_eq st2 i t mesh2 _ mi2 _ hpos2b' hg2 rfl hmat2
      rw [hK1, hK2]
      have hkk : key4 cls t = key4 (docColorsAt d i) t := hck2 t htlt
      rw [hkk, hdc]
    · have hg1 : mesh1.triangles.get? t = none := List.get?_eq_none.mpr (by omega)
      have hg2 : mesh2.triangles.get? t = none := List.get?_eq_none.mpr (by omega)
      rw [triangleColorKey_none_right st1 i t mesh1 hpos1 hg1,
          triangleColorKey_none_right st2 i t mesh2 hpos2b' hg2]
  refine ⟨st1, st2, hRT, ?_, ?_, ?_, ?_⟩
  · rw [hlen2', helen]
  · intro i
    by_cases hi : i < d.elements.length
    · obtain ⟨m1, m2, h1, h2, ht, hv, _⟩ := hPer i hi
      rw [h1, h2, Option.map_some', Option.map_some', ht]
    · have h1 : st1.model.meshes.get? i = none := List.get?_eq_none.mpr (by omega)
      have h2 : st2.model.meshes.get? i = none := List.get?_eq_none.mpr (by
        rw [hlen2', helen]
        omega)
      rw [h1, h2]
  · intro i
    by_cases hi : i < d.elements.length
    · obtain ⟨m1, m2, h1, h2, ht, hv, _⟩ := hPer i hi
      rw [h1, h2, Option.map_some', Option.map_some', hv]
    · have h1 : st1.model.meshes.get? i = none := List.get?_eq_none.mpr (by omega)
      have h2 : st2.model.meshes.get? i = none := List.get?_eq_none.mpr (by
        rw [hlen2', helen]
        omega)
      rw [h1, h2]
  · intro i t
    by_cases hi : i < d.elements.length
    · obtain ⟨m1, m2, h1, h2, ht, hv, hc⟩ := hPer i hi
      exact hc t
    · have h1 : st1.model.meshes.get? i = none := List.get?_eq_none.mpr (by omega)
      have h2 : st2.model.meshes.get? i = none := List.get?_eq_none.mpr (by
        rw [hlen2', helen]
        omega)
      rw [triangleColorKey_none_left st1 i t h1, triangleColorKey_none_left st2 i t h2]

/-- C2, counterexample: the claim quantifies over every BIM document, but for
this document (one mesh in vertex-color mode) the round trip yields no decoded
result at all: the first decode succeeds with triangles carrying vertex-color
slots and no material index, and the re-encoder then throws reading `.color`
of `GetMaterial(triangle.mat)` with `triangle.mat` undefined. -/
theorem bim_roundtrip_claim_false :
    BimRoundTrip ⟨"1.1.0", [vcMesh], [plainElement 0]⟩ (fun _ => "g") =
      Except.error (JsErr.typeError "Cannot read properties of undefined (reading color)") := by
  rfl

/-- A material-mode mesh: one triangle, four packed color entries
(`4/4 = 1 < 3 = indices.length`). -/
def mmMesh : BimMesh :=
  { mesh_id := 5, coordinates := triCoordinates, indices := [some 0, some 1, some 2],
    colors := some [some 10, some 20, some 30, some 255] }

theorem bim_roundtrip_material_mode_witness :
    ∃ st1 st2,
      BimRoundTrip ⟨"1.1.0", [mmMesh], [plainElement 5]⟩ (fun _ => "g") =
        Except.ok (st1, st2) ∧
      st2.model.meshes.length = st1.model.meshes.length ∧
      (∀ i, (st2.model.meshes.get? i).map (fun m => m.triangles.length) =
            (st1.model.meshes.get? i).map (fun m => m.triangles.length)) ∧
      (∀ i, (st2.model.meshes.get? i).map (fun m => m.vertices.length) =
            (st1.model.meshes.get? i).map (fun m => m.vertices.length)) ∧
      (∀ i t, triangleColorKey st2 i t = triangleColorKey st1 i t) := by
  refine bim_roundtrip_material_mode ⟨"1.1.0", [mmMesh], [plainElement 5]⟩ (fun _ => "g") ?_
  intro el hel
  simp only [List.mem_singleton] at hel
  subst hel
  exact ⟨rfl, rfl, mmMesh, [some 10, some 20, some 30, some 255], rfl, rfl, by decide⟩

end OV
